import Mathlib

set_option maxRecDepth 20000

/-!
Verification development for the code-statistics engine and report exporter
(`src/backend/CodeStats.cpp`, `src/frontend/WebServer.cpp`).

The C++ sources are shallowly embedded: strings become `List Char`, byte
buffers become `List Nat` (each element a byte value), `std::size_t`
counters become `Nat`, C++ `int` becomes `Int`, and `double` statistics are
modelled over `ℚ` (the arithmetic performed — sums, divisions by 2 and by a
count — is exact in the value ranges the program handles).  File-system
effects (canonicalization, directory iteration, file opening) are supplied
by an explicit environment record, mirroring exactly how the analyzer
consumes them.
-/

namespace CS

/-- One line of text, as a list of characters (a C++ `std::string`). -/
abbrev Line := List Char

/-- Whitespace test matching `std::isspace` in the C locale:
space, tab, newline, vertical tab, form feed, carriage return. -/
def isSpaceChar (c : Char) : Bool :=
  c = ' ' || c = '\t' || c = '\n' || c = Char.ofNat 11 || c = Char.ofNat 12 || c = '\r'

/-- `trim` from CodeStats.cpp: strip leading and trailing whitespace. -/
def trim (s : List Char) : List Char :=
  ((s.dropWhile isSpaceChar).reverse.dropWhile isSpaceChar).reverse

/-- `leadingSpaces` from CodeStats.cpp: count of leading space characters. -/
def leadingSpaces (line : List Char) : Int :=
  ((line.takeWhile (fun c => c = ' ')).length : Int)

/-- `std::string::find(pat, start)`: index of the first occurrence of `pat`
at or after `start`, `none` playing the role of `npos`.  An empty pattern
matches at `start` (as in C++), and positions up to and including the end
of the string are candidates. -/
def findFrom (hay pat : List Char) (start : Nat) : Option Nat :=
  (List.range (hay.length + 1)).find? (fun i => decide (start ≤ i) && pat.isPrefixOf (hay.drop i))

/-- `find(pat) != npos`. -/
def containsSub (hay pat : List Char) : Bool :=
  (findFrom hay pat 0).isSome

/-- `rfind(pat, 0) == 0`: the string starts with `pat`. -/
def startsWithStr (hay pat : List Char) : Bool :=
  pat.isPrefixOf hay

/-- `std::string::find_first_of(set)`: index of the first character that is
a member of `set`. -/
def findFirstOfIdx (s : List Char) (set : List Char) : Option Nat :=
  s.findIdx? (fun c => set.contains c)

/-- `std::string::find_last_of(set)`: index of the last character that is a
member of `set`. -/
def findLastOfIdx (s : List Char) (set : List Char) : Option Nat :=
  (List.range s.length).foldl
    (fun acc i => if set.contains (s.getD i ' ') then some i else acc) none

/-- `countChar` from CodeStats.cpp (`std::count` over the line). -/
def countChar (text : List Char) (target : Char) : Int :=
  ((text.filter (fun c => c = target)).length : Int)

/-- ASCII lower-casing, matching `std::tolower` in the C locale on the
ASCII identifiers the analyzer inspects. -/
def lowerChar (c : Char) : Char := c.toLower

/-- `toLowerCopy` from CodeStats.cpp. -/
def toLowerCopy (s : List Char) : List Char := s.map lowerChar

/-- Tallies produced by `computeLineMetrics` (struct `LineMetrics`). -/
structure LineMetrics where
  logical : Nat := 0
  blank : Nat := 0
  comment : Nat := 0
  deriving Repr, DecidableEq

/-- One step of the `computeLineMetrics` loop on a single line.  The state
is the running tallies together with the `inBlockComment` flag. -/
def classifyStep (language : String) (includeBlank includeComment : Bool)
    (st : LineMetrics × Bool) (line : Line) : LineMetrics × Bool :=
  let metrics := st.1
  let inBlockComment := st.2
  let trimmed := trim line
  if trimmed = [] then
    (if includeBlank then ({ metrics with blank := metrics.blank + 1 }, inBlockComment)
     else (metrics, inBlockComment))
  else
    let res : Bool × Bool :=
      if language = "Python" then
        (trimmed.headD ' ' = '#', inBlockComment)
      else
        if inBlockComment then
          (true, !(containsSub trimmed ([Char.ofNat 42, Char.ofNat 47])))
        else
          let isLineComment := startsWithStr trimmed ([Char.ofNat 47, Char.ofNat 47])
          let isBlockOpen := startsWithStr trimmed ([Char.ofNat 47, Char.ofNat 42])
          if isLineComment then
            (true, false)
          else if isBlockOpen then
            (true, !(containsSub trimmed ([Char.ofNat 42, Char.ofNat 47])))
          else
            let enter :=
              match findFrom trimmed ([Char.ofNat 47, Char.ofNat 42]) 0 with
              | none => false
              | some blockPos =>
                  (findFrom trimmed ([Char.ofNat 42, Char.ofNat 47]) (blockPos + 2)).isNone
            let isStarCont := startsWithStr trimmed ([Char.ofNat 42])
            (isStarCont, enter)
    let isCommentLine := res.1
    let nextBlock := res.2
    let metrics2 :=
      if includeComment && isCommentLine then { metrics with comment := metrics.comment + 1 }
      else metrics
    let metrics3 :=
      if !isCommentLine then { metrics2 with logical := metrics2.logical + 1 }
      else metrics2
    (metrics3, nextBlock)

/-- `computeLineMetrics` from CodeStats.cpp.  `content = none` models a file
the `std::ifstream` could not open: the zero metrics are returned. -/
def computeLineMetrics (content : Option (List Line)) (language : String)
    (includeBlank includeComment : Bool) : LineMetrics :=
  match content with
  | none => {}
  | some lines =>
      (lines.foldl (classifyStep language includeBlank includeComment) ({}, false)).1

/-- The control-flow / declaration keyword set of `isControlKeyword`. -/
def controlKeywords : List (List Char) :=
  ["if", "for", "while", "switch", "catch", "return", "else",
   "class", "struct", "enum", "case", "default", "using", "typedef"].map String.data

/-- `isControlKeyword` from CodeStats.cpp. -/
def isControlKeyword (token : List Char) : Bool :=
  controlKeywords.contains token

/-- `looksLikeFunctionSignature` from CodeStats.cpp, translated branch by
branch. -/
def looksLikeFunctionSignature (signature : List Char) : Bool :=
  let t := trim signature
  if t = [] then false
  else
    match findFrom t ['('] 0, findFrom t [')'] 0 with
    | some parenOpen, some parenClose =>
      if parenClose < parenOpen then false
      else if t.headD ' ' = '#' || t.getLastD ' ' = ';' then false
      else
        let lower := toLowerCopy t
        let headRejected :=
          match findFirstOfIdx lower [' ', '\t', '('] with
          | none => false
          | some firstSpace => isControlKeyword (lower.take firstSpace)
        if headRejected then false
        else if containsSub lower (" operator".data) then true
        else if containsSub lower (" namespace ".data) || startsWithStr lower ("namespace".data) then
          false
        else true
    | _, _ => false

/-- `extractFunctionName` from CodeStats.cpp. -/
def extractFunctionName (signature : List Char) : List Char :=
  match findFrom signature ['('] 0 with
  | none => "anonymous".data
  | some parenPos =>
    let left := trim (signature.take parenPos)
    if left = [] then "anonymous".data
    else
      let candidate :=
        match findLastOfIdx left [' ', '\t', ':', Char.ofNat 42, '&'] with
        | none => left
        | some tokenStart => left.drop (tokenStart + 1)
      if candidate = [] then "anonymous".data else candidate

/-- `stripInlineComment` from CodeStats.cpp. -/
def stripInlineComment (line : List Char) : List Char :=
  match findFrom line ([Char.ofNat 47, Char.ofNat 47]) 0 with
  | none => line
  | some commentPos => line.take commentPos

/-- `FunctionDetail` from CodeStats.hpp (the file path is carried by the
caller and not needed by any property, so it is omitted). -/
structure FunctionDetail where
  name : List Char
  language : String
  lineNumber : Nat
  length : Int
  deriving Repr, DecidableEq

/-- `FunctionSummary` from CodeStats.hpp. -/
structure FunctionSummary where
  functionCount : Nat := 0
  averageLength : ℚ := 0
  minLength : Int := 0
  maxLength : Int := 0
  medianLength : ℚ := 0
  lengths : List Int := []
  details : List FunctionDetail := []
  deriving Repr, DecidableEq

/-- State of the per-file loop of `analyzeBraceLanguageFile`. -/
structure BraceSt where
  sigBuffer : List Char := []
  sigStartLine : Nat := 0
  pendingSigLines : Int := 0
  awaitingBody : Bool := false
  insideFunction : Bool := false
  braceDepth : Int := 0
  fnLength : Int := 0
  fnStartLine : Nat := 0
  fnName : List Char := []
  summary : FunctionSummary
  deriving Repr

/-- The `resetSignature` lambda of `analyzeBraceLanguageFile`. -/
def resetSignature (st : BraceSt) : BraceSt :=
  { st with sigBuffer := [], sigStartLine := 0, pendingSigLines := 0, awaitingBody := false }

/-- Appends a finished function record, mirroring the two record-emission
sites of `analyzeBraceLanguageFile`. -/
def pushBraceDetail (language : String) (name : List Char) (startLine : Nat)
    (len : Int) (s : FunctionSummary) : FunctionSummary :=
  { s with
    lengths := s.lengths ++ [len],
    details := s.details ++
      [{ name := name, language := language, lineNumber := startLine, length := len }] }

/-- One iteration of the line loop of `analyzeBraceLanguageFile`; `i` is the
zero-based line index. -/
def braceStep (language : String) (st : BraceSt) (iline : Nat × Line) : BraceSt :=
  let i := iline.1
  let codeLine := stripInlineComment iline.2
  let trimmed := trim codeLine
  if !st.insideFunction then
    if trimmed = [] then
      if !st.awaitingBody then resetSignature st else st
    else
      let st := if st.sigBuffer = [] then { st with sigStartLine := i + 1 } else st
      let st := { st with
        sigBuffer := st.sigBuffer ++ (' ' :: codeLine),
        pendingSigLines := st.pendingSigLines + 1 }
      let st := if (findFrom st.sigBuffer ['('] 0).isSome then { st with awaitingBody := true } else st
      if st.awaitingBody && (findFrom codeLine ['\x7b'] 0).isSome then
        if looksLikeFunctionSignature st.sigBuffer then
          let st := { st with
            insideFunction := true,
            fnStartLine := st.sigStartLine,
            fnName := extractFunctionName st.sigBuffer,
            fnLength := st.pendingSigLines,
            braceDepth := countChar codeLine '\x7b' - countChar codeLine '\x7d' }
          if st.braceDepth ≤ 0 then
            let st := { st with
              summary := pushBraceDetail language st.fnName st.fnStartLine st.fnLength st.summary,
              insideFunction := false }
            let st := resetSignature st
            { st with fnLength := 0, fnName := [] }
          else st
        else resetSignature st
      else if !st.awaitingBody && (findFrom codeLine [';'] 0).isSome then
        resetSignature st
      else st
  else
    let st := if trimmed ≠ [] then { st with fnLength := st.fnLength + 1 } else st
    let st := { st with
      braceDepth := st.braceDepth + countChar codeLine '\x7b' - countChar codeLine '\x7d' }
    if st.braceDepth ≤ 0 then
      let finalName := if st.fnName = [] then "anonymous".data else st.fnName
      let st := { st with
        summary := pushBraceDetail language finalName st.fnStartLine st.fnLength st.summary,
        insideFunction := false }
      let st := resetSignature st
      { st with braceDepth := 0, fnLength := 0, fnName := [] }
    else st

/-- `analyzeBraceLanguageFile` from CodeStats.cpp.  It reads the file's
lines (`none` = the stream failed to open, leaving the summary untouched)
and runs the signature / body state machine over them. -/
def analyzeBraceLanguageFile (content : Option (List Line)) (language : String)
    (summary : FunctionSummary) : FunctionSummary :=
  match content with
  | none => summary
  | some lines =>
      (lines.enum.foldl (braceStep language) { summary := summary }).summary

/-- Body-scan helper of `analyzePythonFile`: walks the lines after a `def`
line and counts the non-blank lines that still belong to the function. -/
def pyBodyLen (indent : Int) : List Line → Int
  | [] => 0
  | l :: ls =>
    let t := trim l
    let bodyIndent := leadingSpaces l
    if t ≠ [] && bodyIndent ≤ indent && !(startsWithStr t ['#']) then 0
    else (if t ≠ [] then 1 else 0) + pyBodyLen indent ls

/-- Function-name extraction of `analyzePythonFile` (the text between
`def ` and the first `(`, or failing that the first `:`). -/
def pyFunctionName (trimmedLine : List Char) : List Char :=
  let nameStart :=
    match findFrom trimmedLine [' '] 0 with
    | some p => p + 1
    | none => 0
  let nameEnd :=
    match findFrom trimmedLine ['('] nameStart with
    | some p => some p
    | none => findFrom trimmedLine [':'] nameStart
  match nameEnd with
  | some ne =>
      if ne > nameStart then (trimmedLine.drop nameStart).take (ne - nameStart)
      else "unknown".data
  | none => "unknown".data

/-- `analyzePythonFile` from CodeStats.cpp. -/
def analyzePythonFile (content : Option (List Line)) (summary : FunctionSummary) :
    FunctionSummary :=
  match content with
  | none => summary
  | some lines =>
      lines.enum.foldl
        (fun s p =>
          let i := p.1
          let trimmedLine := trim p.2
          if startsWithStr trimmedLine ("def ".data) then
            let indent := leadingSpaces p.2
            let len := 1 + pyBodyLen indent (lines.drop (i + 1))
            let fname := pyFunctionName trimmedLine
            if len > 0 then
              { s with
                lengths := s.lengths ++ [len],
                details := s.details ++
                  [{ name := fname, language := "Python", lineNumber := i + 1, length := len }] }
            else s
          else s)
        summary

/-- `LanguageSummary` from CodeStats.hpp. -/
structure LanguageSummary where
  fileCount : Nat := 0
  lineCount : Nat := 0
  blankLineCount : Nat := 0
  commentLineCount : Nat := 0
  functions : FunctionSummary := {}
  deriving Repr, DecidableEq

/-- `CodeStatsResult` from CodeStats.hpp.  The `unordered_map` of language
summaries is modelled as an association list with unique keys, and the
`unordered_set` of included languages as a duplicate-free list. -/
structure CodeStatsResult where
  languageSummaries : List (String × LanguageSummary) := []
  totalLines : Nat := 0
  totalBlankLines : Nat := 0
  totalCommentLines : Nat := 0
  withinWorkspace : Bool := true
  directoryExists : Bool := true
  includeBlankLines : Bool := false
  includeCommentLines : Bool := false
  includedLanguages : List String := []
  deriving Repr, DecidableEq

/-- `CodeStatsOptions` from CodeStats.hpp (`languages` empty = all). -/
structure CodeStatsOptions where
  languages : List String := []
  includeBlankLines : Bool := false
  includeCommentLines : Bool := false
  deriving Repr, DecidableEq

/-- Map lookup with default construction, modelling
`result.languageSummaries[key]` reads. -/
def getSummaryD (m : List (String × LanguageSummary)) (k : String) : LanguageSummary :=
  match m.lookup k with
  | some v => v
  | none => {}

/-- Map write-back: replaces the value at `k`, inserting at the end when the
key is absent (an `unordered_map::operator[]` update). -/
def setSummary (m : List (String × LanguageSummary)) (k : String) (v : LanguageSummary) :
    List (String × LanguageSummary) :=
  if (m.lookup k).isSome then
    m.map (fun p => if p.1 = k then (k, v) else p)
  else m ++ [(k, v)]

/-- `try_emplace` with a default summary: inserts only when absent. -/
def tryEmplaceSummary (m : List (String × LanguageSummary)) (k : String) :
    List (String × LanguageSummary) :=
  if (m.lookup k).isSome then m else m ++ [(k, ({} : LanguageSummary))]

/-- `unordered_set::insert` on the model's duplicate-free list. -/
def insertLang (s : List String) (k : String) : List String :=
  if s.contains k then s else s ++ [k]

/-- The extension tables of `visitFile` and its language-dispatch chain. -/
def languageKeyOf (ext : String) : Option String :=
  if [".c"].contains ext then some "C"
  else if [".C", ".cc", ".cpp", ".cxx", ".h", ".hpp", ".hh", ".hxx"].contains ext then some "C++"
  else if [".cs"].contains ext then some "C#"
  else if [".java"].contains ext then some "Java"
  else if [".py"].contains ext then some "Python"
  else none

/-- A regular file as handed to `visitFile` by the directory walk: its
extension (`path.extension().string()`) and its lines, `none` when the file
cannot be opened for reading. -/
structure FileEntry where
  ext : String
  content : Option (List Line)

/-- The per-file mutation `visitFile` applies to the matched language's
summary: bump the file count, add the classifier tallies (blank and
comment only when the corresponding option is set), then run the
language-appropriate function extractor. -/
def updateSummaryForFile (entry : FileEntry) (languageKey : String)
    (options : CodeStatsOptions) (metrics : LineMetrics) (s0 : LanguageSummary) :
    LanguageSummary :=
  let s := { s0 with
    fileCount := s0.fileCount + 1,
    lineCount := s0.lineCount + metrics.logical }
  let s := if options.includeBlankLines then
      { s with blankLineCount := s.blankLineCount + metrics.blank } else s
  let s := if options.includeCommentLines then
      { s with commentLineCount := s.commentLineCount + metrics.comment } else s
  if languageKey = "Python" then
    { s with functions := analyzePythonFile entry.content s.functions }
  else if languageKey = "C" || languageKey = "C++" || languageKey = "C#"
      || languageKey = "Java" then
    { s with functions := analyzeBraceLanguageFile entry.content languageKey s.functions }
  else s

/-- `visitFile` from CodeStats.cpp. -/
def visitFile (entry : FileEntry) (result : CodeStatsResult) (options : CodeStatsOptions) :
    CodeStatsResult :=
  match languageKeyOf entry.ext with
  | none => result
  | some languageKey =>
    if options.languages ≠ [] && !(options.languages.contains languageKey) then result
    else
      let metrics := computeLineMetrics entry.content languageKey
        options.includeBlankLines options.includeCommentLines
      { result with
        includedLanguages := insertLang result.includedLanguages languageKey,
        languageSummaries := setSummary result.languageSummaries languageKey
          (updateSummaryForFile entry languageKey options metrics
            (getSummaryD result.languageSummaries languageKey)),
        totalLines := result.totalLines + metrics.logical,
        totalBlankLines := if options.includeBlankLines then
            result.totalBlankLines + metrics.blank else result.totalBlankLines,
        totalCommentLines := if options.includeCommentLines then
            result.totalCommentLines + metrics.comment else result.totalCommentLines }

/-- Ascending sort modelling the in-place `std::sort` of an `int` vector:
integers under the total order `≤` have a unique sorted arrangement, so
any comparison sort — here an insertion sort, which the kernel can
evaluate — produces exactly the `std::sort` result. -/
def sortInts (l : List Int) : List Int :=
  l.insertionSort (fun a b => a ≤ b)

/-- The per-language finalization loop of `CodeStatsAnalyzer::analyze`:
sorts the length list and derives count, min, max, average and median. -/
def finalizeFunctions (fs : FunctionSummary) : FunctionSummary :=
  if fs.lengths = [] then
    { fs with
        functionCount := 0, minLength := 0, maxLength := 0,
        averageLength := 0, medianLength := 0 }
  else
    let sorted := sortInts fs.lengths
    let n := sorted.length
    let avg : ℚ := ((sorted.sum : ℚ)) / (n : ℚ)
    let med : ℚ :=
      if n % 2 = 0 then
        (((sorted.getD (n / 2 - 1) 0 + sorted.getD (n / 2) 0 : Int) : ℚ)) / 2
      else ((sorted.getD (n / 2) 0 : Int) : ℚ)
    { fs with
      lengths := sorted,
      functionCount := n,
      minLength := sorted.headD 0,
      maxLength := sorted.getLastD 0,
      averageLength := avg,
      medianLength := med }

/-- The file-system environment `analyze` consumes.  Paths are lists of
components of a POSIX absolute path.  `canonCurrent` is the result of
`weakly_canonical(current_path())` (`none` = the call set its error code);
`canonReq` is `weakly_canonical` on the composed requested path; and
`walkFiles` is the outcome of recursively iterating the canonical requested
directory — `none` when the iterator constructor reports an error (a
missing or inaccessible directory), otherwise the regular files the pruned
walk visits, in order.  `weakly_canonical` succeeds on paths that do not
exist (it canonicalizes the existing prefix and appends the remainder), so
a missing directory is typically `canonReq = some _` with
`walkFiles = none`. -/
structure Fsys where
  canonCurrent : Option (List String)
  canonReq : List String → Option (List String)
  walkFiles : List String → Option (List FileEntry)

/-- Rendering of an absolute path as its `string()` form with the POSIX
preferred separator. -/
def pathStr (p : List String) : List Char :=
  p.foldl (fun acc c => acc ++ ('/' :: c.data)) []

/-- The `isSubDir` containment test of `CodeStatsAnalyzer::analyze`:
the workspace string must be a prefix of the requested string, and the
character immediately after it must be the separator unless the strings
have equal length. -/
def isSubDir (workspaceStr requestedStr : List Char) : Bool :=
  decide (workspaceStr.length ≤ requestedStr.length) &&
  decide (requestedStr.take workspaceStr.length = workspaceStr) &&
  (decide (requestedStr.length = workspaceStr.length) ||
    decide (requestedStr.getD workspaceStr.length ' ' = '/'))

/-- The directory-walk loop of `CodeStatsAnalyzer::analyze`: when the
recursive iterator constructor reports an error the loop body never runs;
otherwise every visited regular file is dispatched to `visitFile`. -/
def walkResult (fsys : Fsys) (options : CodeStatsOptions) (base : CodeStatsResult)
    (dir : List String) : CodeStatsResult :=
  match fsys.walkFiles dir with
  | none => base
  | some entries => entries.foldl (fun r e => visitFile e r options) base

/-- The per-language finalization loop of `CodeStatsAnalyzer::analyze`. -/
def finalizeSummaries (r : CodeStatsResult) : CodeStatsResult :=
  { r with
      languageSummaries := r.languageSummaries.map
        (fun p => (p.1, { p.2 with functions := finalizeFunctions p.2.functions })) }

/-- The trailing loop of `CodeStatsAnalyzer::analyze` force-inserting every
requested language. -/
def forceRequested (languages : List String) (r : CodeStatsResult) : CodeStatsResult :=
  languages.foldl
    (fun r2 lang =>
      { r2 with
          languageSummaries := tryEmplaceSummary r2.languageSummaries lang,
          includedLanguages := insertLang r2.includedLanguages lang })
    r

/-- The zero result `analyze` starts from, echoing the options. -/
def baseResult (options : CodeStatsOptions) : CodeStatsResult :=
  { includeBlankLines := options.includeBlankLines,
    includeCommentLines := options.includeCommentLines }

/-- `CodeStatsAnalyzer::analyze` from CodeStats.cpp, over an explicit
file-system environment.  `root` is the requested root as relative path
components (`path::relative_path()` of the argument). -/
def analyze (fsys : Fsys) (root : List String) (options : CodeStatsOptions) :
    CodeStatsResult :=
  match fsys.canonCurrent with
  | none => { baseResult options with withinWorkspace := false, directoryExists := false }
  | some workspace =>
    let input := if root = [] then ["."] else root
    match fsys.canonReq (workspace ++ input) with
    | none => { baseResult options with directoryExists := false }
    | some canonicalRequested =>
      if !(isSubDir (pathStr workspace) (pathStr canonicalRequested)) then
        { baseResult options with withinWorkspace := false }
      else
        forceRequested options.languages
          (finalizeSummaries (walkResult fsys options (baseResult options) canonicalRequested))

/-- Lexical canonicalization of an absolute component path: collapses `.`
and `..` segments.  This is `weakly_canonical` on a symlink-free tree. -/
def lexCollapse (p : List String) : List String :=
  p.foldl (fun acc c => if c = "." then acc else if c = ".." then acc.dropLast else acc ++ [c]) []

/-! ### The hand-built ZIP container (WebServer.cpp) -/

/-- A byte buffer: each element is one byte value. -/
abbrev Bytes := List Nat

/-- One round of the CRC-32 table generator's inner loop:
shift right, xoring in the reflected polynomial on an odd input. -/
def crcStep (c : Nat) : Nat :=
  if c % 2 = 1 then (c / 2) ^^^ 0xEDB88320 else c / 2

/-- Entry `i` of the precomputed 256-entry CRC table of `crc32` in
WebServer.cpp (the table is memoization of this eight-fold step). -/
def crcTable (i : Nat) : Nat := crcStep^[8] i

/-- The folding loop of `crc32`, starting from `0xFFFFFFFF`. -/
def crc32Fold (data : Bytes) : Nat :=
  data.foldl (fun crc ch => (crc >>> 8) ^^^ crcTable ((crc ^^^ ch) &&& 255)) 0xFFFFFFFF

/-- `crc32` from WebServer.cpp: table-driven reflected CRC-32 with initial
value `0xFFFFFFFF` and final xor `0xFFFFFFFF`. -/
def crc32 (data : Bytes) : Nat := crc32Fold data ^^^ 0xFFFFFFFF

/-- `writeLE16` from WebServer.cpp: two little-endian bytes. -/
def writeLE16 (v : Nat) : Bytes := [v % 256, v / 256 % 256]

/-- `writeLE32` from WebServer.cpp: four little-endian bytes. -/
def writeLE32 (v : Nat) : Bytes :=
  [v % 256, v / 256 % 256, v / 65536 % 256, v / 16777216 % 256]

/-- `ZipBuilder::Entry` from WebServer.cpp; the 32-bit size fields hold the
truncated (`static_cast<uint32_t>`) content size. -/
structure ZipEntry where
  name : Bytes
  content : Bytes
  crc : Nat
  compressedSize : Nat
  uncompressedSize : Nat
  deriving Repr, DecidableEq

/-- `ZipBuilder::addFile` from WebServer.cpp. -/
def zipAddFile (name content : Bytes) : ZipEntry :=
  { name := name, content := content, crc := crc32 content,
    compressedSize := content.length % 4294967296,
    uncompressedSize := content.length % 4294967296 }

/-- The local file record written for one entry by `ZipBuilder::finalize`:
signature `PK\x03\x04`, version 20, no flags/compression/timestamps, CRC,
sizes, name length, then name and content verbatim. -/
def zipLocalChunk (e : ZipEntry) : Bytes :=
  [80, 75, 3, 4] ++ writeLE16 20 ++ writeLE16 0 ++ writeLE16 0 ++ writeLE16 0 ++ writeLE16 0 ++
  writeLE32 e.crc ++ writeLE32 e.compressedSize ++ writeLE32 e.uncompressedSize ++
  writeLE16 (e.name.length % 65536) ++ writeLE16 0 ++ e.name ++ e.content

/-- The first loop of `ZipBuilder::finalize`: concatenates the local
records, recording for each entry the (32-bit-truncated) offset at which
its local header was written.  `pos` is the byte count already emitted. -/
def zipLocalSection : List ZipEntry → Nat → Bytes × List (ZipEntry × Nat)
  | [], _ => ([], [])
  | e :: es, pos =>
    let chunk := zipLocalChunk e
    let r := zipLocalSection es (pos + chunk.length)
    (chunk ++ r.1, (e, pos % 4294967296) :: r.2)

/-- The central-directory record written for one entry (second loop of
`ZipBuilder::finalize`); `p.2` is the recorded local-header offset. -/
def zipCentralRecord (p : ZipEntry × Nat) : Bytes :=
  [80, 75, 1, 2] ++ writeLE16 20 ++ writeLE16 20 ++ writeLE16 0 ++ writeLE16 0 ++
  writeLE16 0 ++ writeLE16 0 ++
  writeLE32 p.1.crc ++ writeLE32 p.1.compressedSize ++ writeLE32 p.1.uncompressedSize ++
  writeLE16 (p.1.name.length % 65536) ++ writeLE16 0 ++ writeLE16 0 ++ writeLE16 0 ++
  writeLE16 0 ++ writeLE32 0 ++ writeLE32 p.2 ++ p.1.name

/-- The end-of-central-directory record (`PK\x05\x06`): the entry count
twice, the central directory's byte length and its start offset. -/
def zipEocd (count cdSize cdOffset : Nat) : Bytes :=
  [80, 75, 5, 6] ++ writeLE16 0 ++ writeLE16 0 ++ writeLE16 (count % 65536) ++
  writeLE16 (count % 65536) ++ writeLE32 (cdSize % 4294967296) ++
  writeLE32 (cdOffset % 4294967296) ++ writeLE16 0

/-- `ZipBuilder::finalize` from WebServer.cpp: local records, then the
central directory, then the end record. -/
def zipFinalize (entries : List ZipEntry) : Bytes :=
  let bl := zipLocalSection entries 0
  let cd := (bl.2.map zipCentralRecord).flatten
  bl.1 ++ cd ++ zipEocd entries.length cd.length bl.1.length

/-- One entry as read back out of a ZIP stream's central directory. -/
structure ZipParsedEntry where
  crc : Nat
  compressedSize : Nat
  uncompressedSize : Nat
  name : Bytes
  content : Bytes
  deriving Repr, DecidableEq

/-- Modelled from the spec: extraction of one stored entry's content bytes.
Following the §4.8 layout, the local record at the recorded offset is a
30-byte header (`PK\x03\x04`, version, flags, method, time, date, CRC,
sizes, name length, extra length) followed by the name and the content
verbatim; the entry's content is the `uncomp` bytes after name and extra
field. -/
def parseLocalContent (zip : Bytes) (off uncomp : Nat) : Option Bytes :=
  match zip.drop off with
  | 80 :: 75 :: 3 :: 4 :: _v0 :: _v1 :: _f0 :: _f1 :: _m0 :: _m1 :: _t0 :: _t1 :: _d0 :: _d1 ::
    _c0 :: _c1 :: _c2 :: _c3 :: _s0 :: _s1 :: _s2 :: _s3 :: _u0 :: _u1 :: _u2 :: _u3 ::
    n0 :: n1 :: x0 :: x1 :: rest =>
      some ((rest.drop ((n0 + 256 * n1) + (x0 + 256 * x1))).take uncomp)
  | _ => none

/-- Modelled from the spec: sequential parse of `count` central-directory
records (46-byte fixed part `PK\x01\x02`, versions, flags, method, time,
date, CRC, compressed and uncompressed size, name/extra/comment lengths,
disk and attribute fields, local-header offset, then the name), looking up
each entry's content through its recorded local-header offset. -/
def parseCentralEntries (zip : Bytes) : Nat → Bytes → Option (List ZipParsedEntry)
  | 0, _ => some []
  | k + 1, 80 :: 75 :: 1 :: 2 :: _vm0 :: _vm1 :: _vn0 :: _vn1 :: _fl0 :: _fl1 :: _me0 :: _me1 ::
      _ti0 :: _ti1 :: _da0 :: _da1 ::
      r0 :: r1 :: r2 :: r3 :: s0 :: s1 :: s2 :: s3 :: u0 :: u1 :: u2 :: u3 ::
      n0 :: n1 :: x0 :: x1 :: m0 :: m1 :: _dk0 :: _dk1 :: _ia0 :: _ia1 ::
      _ea0 :: _ea1 :: _ea2 :: _ea3 :: o0 :: o1 :: o2 :: o3 :: rest =>
      let nameLen := n0 + 256 * n1
      let extraLen := x0 + 256 * x1
      let commentLen := m0 + 256 * m1
      let uncomp := u0 + 256 * u1 + 65536 * u2 + 16777216 * u3
      let off := o0 + 256 * o1 + 65536 * o2 + 16777216 * o3
      (match parseLocalContent zip off uncomp with
       | none => none
       | some content =>
         (match parseCentralEntries zip k (rest.drop (nameLen + extraLen + commentLen)) with
          | none => none
          | some es =>
            some ({ crc := r0 + 256 * r1 + 65536 * r2 + 16777216 * r3,
                    compressedSize := s0 + 256 * s1 + 65536 * s2 + 16777216 * s3,
                    uncompressedSize := uncomp,
                    name := rest.take nameLen,
                    content := content } :: es)))
  | _ + 1, _ => none

/-- Modelled from the spec: parse a ZIP byte stream back through its
central directory.  The last 22 bytes must be the end record
(`PK\x05\x06`, disk numbers, the entry count twice, central-directory size
and offset, comment length); the central directory is then read at the
recorded offset and the reported number of entries is parsed out of it. -/
def parseZip (zip : Bytes) : Option (List ZipParsedEntry) :=
  match zip.drop (zip.length - 22) with
  | 80 :: 75 :: 5 :: 6 :: _dn0 :: _dn1 :: _cd0 :: _cd1 :: _nd0 :: _nd1 :: t0 :: t1 ::
    z0 :: z1 :: z2 :: z3 :: o0 :: o1 :: o2 :: o3 :: _cl0 :: _cl1 :: [] =>
      parseCentralEntries zip (t0 + 256 * t1)
        ((zip.drop (o0 + 256 * o1 + 65536 * o2 + 16777216 * o3)).take
          (z0 + 256 * z1 + 65536 * z2 + 16777216 * z3))
  | _ => none

/-- ASCII byte encoding of a literal string (all exporter part names and
fixed XML parts are ASCII). -/
def bytesOfString (s : String) : Bytes := s.data.map Char.toNat

/-- The `[Content_Types].xml` part emitted verbatim by
`WebServer::buildXlsxReport`. -/
def contentTypesXml : String :=
  "<?xml version=\"1.0\" encoding=\"UTF-8\"?><Types xmlns=\"http://schemas.openxmlformats.org/package/2006/content-types\"><Default Extension=\"rels\" ContentType=\"application/vnd.openxmlformats-package.relationships+xml\"/><Default Extension=\"xml\" ContentType=\"application/xml\"/><Override PartName=\"/xl/workbook.xml\" ContentType=\"application/vnd.openxmlformats-officedocument.spreadsheetml.sheet.main+xml\"/><Override PartName=\"/xl/worksheets/sheet1.xml\" ContentType=\"application/vnd.openxmlformats-officedocument.spreadsheetml.worksheet+xml\"/></Types>"

/-- The `_rels/.rels` part emitted verbatim. -/
def relsXml : String :=
  "<?xml version=\"1.0\" encoding=\"UTF-8\"?><Relationships xmlns=\"http://schemas.openxmlformats.org/package/2006/relationships\"><Relationship Id=\"rId1\" Type=\"http://schemas.openxmlformats.org/officeDocument/2006/relationships/officeDocument\" Target=\"xl/workbook.xml\"/></Relationships>"

/-- The `xl/workbook.xml` part emitted verbatim. -/
def workbookXml : String :=
  "<?xml version=\"1.0\" encoding=\"UTF-8\"?><workbook xmlns=\"http://schemas.openxmlformats.org/spreadsheetml/2006/main\" xmlns:r=\"http://schemas.openxmlformats.org/officeDocument/2006/relationships\"><sheets><sheet name=\"Languages\" sheetId=\"1\" r:id=\"rId1\"/></sheets></workbook>"

/-- The `xl/_rels/workbook.xml.rels` part emitted verbatim. -/
def workbookRelsXml : String :=
  "<?xml version=\"1.0\" encoding=\"UTF-8\"?><Relationships xmlns=\"http://schemas.openxmlformats.org/package/2006/relationships\"><Relationship Id=\"rId1\" Type=\"http://schemas.openxmlformats.org/officeDocument/2006/relationships/worksheet\" Target=\"worksheets/sheet1.xml\"/></Relationships>"

/-- The five parts `WebServer::buildXlsxReport` adds, in order: four fixed
XML parts and the worksheet.  The worksheet bytes are a parameter: every
`AnalysisResult` determines some sheet byte string, and the container
properties hold for all of them. -/
def xlsxParts (sheet : Bytes) : List (Bytes × Bytes) :=
  [(bytesOfString ("[Content_Types].xml"), bytesOfString contentTypesXml),
   (bytesOfString ("_rels/.rels"), bytesOfString relsXml),
   (bytesOfString ("xl/workbook.xml"), bytesOfString workbookXml),
   (bytesOfString ("xl/_rels/workbook.xml.rels"), bytesOfString workbookRelsXml),
   (bytesOfString ("xl/worksheets/sheet1.xml"), sheet)]

/-- `WebServer::buildXlsxReport` at the container level: add the five
parts to a `ZipBuilder` and finalize it. -/
def buildXlsxReportBytes (sheet : Bytes) : Bytes :=
  zipFinalize ((xlsxParts sheet).map (fun p => zipAddFile p.1 p.2))

/-! ### CSV and JSON report rendering (WebServer.cpp) -/

/-- `LanguageRow` from WebServer.cpp. -/
structure LanguageRow where
  name : List Char
  files : Nat
  lines : Nat
  blankLines : Nat
  commentLines : Nat
  functionCount : Nat
  minFunctionLength : Int
  maxFunctionLength : Int
  averageFunctionLength : ℚ
  medianFunctionLength : ℚ
  deriving Repr, DecidableEq

/-- The per-summary row constructor inside `collectLanguageRows`. -/
def toLanguageRow (p : String × LanguageSummary) : LanguageRow :=
  { name := p.1.data,
    files := p.2.fileCount,
    lines := p.2.lineCount,
    blankLines := p.2.blankLineCount,
    commentLines := p.2.commentLineCount,
    functionCount := p.2.functions.functionCount,
    minFunctionLength := p.2.functions.minLength,
    maxFunctionLength := p.2.functions.maxLength,
    averageFunctionLength := p.2.functions.averageLength,
    medianFunctionLength := p.2.functions.medianLength }

/-- `collectLanguageRows` from WebServer.cpp: one row per language summary,
sorted by language name ascending.  The `std::sort` with comparator
`a.name < b.name` (lexicographic `std::string` order) is modelled by an
insertion sort under the corresponding reflexive order `a.name ≤ b.name`;
the two agree whenever names are distinct, which holds for every map the
analyzer builds. -/
def collectLanguageRows (result : CodeStatsResult) : List LanguageRow :=
  (result.languageSummaries.map toLanguageRow).insertionSort (fun a b => a.name ≤ b.name)

/-- Decimal digits of a natural number, as `operator<<` renders it. -/
def natChars (n : Nat) : List Char :=
  if h : n < 10 then [Char.ofNat (48 + n)]
  else natChars (n / 10) ++ [Char.ofNat (48 + n % 10)]
  termination_by n
  decreasing_by exact Nat.div_lt_self (by omega) (by omega)

/-- Decimal rendering of a C++ `int`. -/
def intChars (i : Int) : List Char :=
  if i < 0 then '-' :: natChars i.natAbs else natChars i.toNat

/-- Two-digit zero-padded rendering of `n % 100`. -/
def twoDigitChars (n : Nat) : List Char :=
  [Char.ofNat (48 + n / 10 % 10), Char.ofNat (48 + n % 10)]

/-- Rendering of a nonnegative amount of hundredths as `d…d.dd`. -/
def hundredthsChars (n : Nat) : List Char :=
  natChars (n / 100) ++ '.' :: twoDigitChars (n % 100)

/-- Model of `std::fixed << std::setprecision(2)` on the exact statistic
value: round to the nearest hundredth and print two decimals.  The claims
never depend on these digits; only their character set (digits, minus
sign, dot) matters to the report structure. -/
def fixed2Chars (q : ℚ) : List Char :=
  let scaled : Int := round (q * 100)
  if scaled < 0 then '-' :: hundredthsChars scaled.natAbs else hundredthsChars scaled.toNat

/-- Left-pad a digit string with zeros to `d` characters. -/
def padLeft (d : Nat) (s : List Char) : List Char :=
  List.replicate (d - s.length) '0' ++ s

/-- The trailing-zero stripping `%g` applies: trailing zeros go, and a
decimal point left trailing by that goes with them. -/
def stripTail (s : List Char) : List Char :=
  let r := s.reverse.dropWhile (fun c => c = '0')
  (if r.headD ' ' = '.' then r.drop 1 else r).reverse

/-- Multiply a rational by `10^(-e)`. -/
def scaleByPow (v : ℚ) (e : Int) : ℚ :=
  if 0 ≤ e then v / 10 ^ e.toNat else v * 10 ^ (-e).toNat

/-- Fuel-bounded computation of `⌊log10 q⌋` for a positive rational by
scaling into `[1, 10)`; the fuel is sized from the digit counts of the
numerator and denominator. -/
def decExpAux : ℚ → Nat → Int
  | _, 0 => 0
  | q, fuel + 1 =>
    if q < 1 then decExpAux (q * 10) fuel - 1
    else if 10 ≤ q then decExpAux (q / 10) fuel + 1
    else 0

/-- Decimal exponent `⌊log10 q⌋` of a positive rational. -/
def decExp (q : ℚ) : Int :=
  decExpAux q ((natChars q.num.natAbs).length + (natChars q.den).length + 2)

/-- The exponent field of `%e`/`%g`: a sign and at least two digits, as
the C++ library prints (`e+06`, `e-05`, `e+123`). -/
def expChars (e : Int) : List Char :=
  (if e < 0 then '-' else '+') ::
    (if e.natAbs < 10 then '0' :: natChars e.natAbs else natChars e.natAbs)

/-- Model of default `operator<<` formatting of the double-valued
statistics in the JSON report: `%g` with precision six, so fixed notation
with six significant digits while the decimal exponent lies in `[-4, 5]`,
and scientific notation `m.mmmmme±dd` when the magnitude reaches `10^6`
or falls below `10^-4`, trailing zeros (and a decimal point left trailing
by that) stripped in both.  As with `fixed2Chars`, the digits idealize the
binary double's rounding on the exact rational statistic; the notation
split and the character alphabet match the program's output. -/
def doubleChars (q : ℚ) : List Char :=
  if q = 0 then ['0']
  else
    let m : ℚ := if q < 0 then -q else q
    let sign : List Char := if q < 0 then ['-'] else []
    if 1000000 ≤ m ∨ m < 1 / 10000 then
      let e := decExp m
      let scaled := (round (scaleByPow m e * 100000)).toNat
      sign ++
        (stripTail (natChars (scaled / 100000) ++ '.' :: padLeft 5 (natChars (scaled % 100000))) ++
          'e' :: expChars e)
    else
      let d := (5 - decExp m).toNat
      let scaled := (round (m * 10 ^ d)).toNat
      sign ++ stripTail (natChars (scaled / 10 ^ d) ++ '.' :: padLeft d (natChars (scaled % 10 ^ d)))

/-- Upper-case hexadecimal digit, as `std::hex << std::uppercase` prints. -/
def hexDigitUpper (n : Nat) : Char :=
  if n < 10 then Char.ofNat (48 + n) else Char.ofNat (55 + n)

/-- The per-character escapes of `jsonEscape` in WebServer.cpp. -/
def jsonEscapeChar (c : Char) : List Char :=
  if c = '\\' then ['\\', '\\']
  else if c = '"' then ['\\', '"']
  else if c = Char.ofNat 8 then ['\\', 'b']
  else if c = Char.ofNat 12 then ['\\', 'f']
  else if c = '\n' then ['\\', 'n']
  else if c = '\r' then ['\\', 'r']
  else if c = '\t' then ['\\', 't']
  else if c.toNat < 32 then
    ['\\', 'u', '0', '0', hexDigitUpper (c.toNat / 16), hexDigitUpper (c.toNat % 16)]
  else [c]

/-- `jsonEscape` from WebServer.cpp. -/
def jsonEscape (s : List Char) : List Char := (s.map jsonEscapeChar).flatten

/-- The UTF-8 byte-order mark `buildCsvReport` emits first. -/
def bomChars : List Char := [Char.ofNat 0xEF, Char.ofNat 0xBB, Char.ofNat 0xBF]

/-- The header line of `WebServer::buildCsvReport` (bracketed columns only
when the corresponding option is echoed in the result). -/
def csvHeaderText (includeBlank includeComment : Bool) : List Char :=
  bomChars ++ "Language,Files,Lines".data ++
  (if includeBlank then ",BlankLines".data else []) ++
  (if includeComment then ",CommentLines".data else []) ++
  ",Functions,MinFunctionLength,MaxFunctionLength,AverageFunctionLength,MedianFunctionLength\n".data

/-- One data row of `WebServer::buildCsvReport`. -/
def csvRowText (includeBlank includeComment : Bool) (row : LanguageRow) : List Char :=
  '"' :: row.name ++ '"' :: ',' :: natChars row.files ++ ',' :: natChars row.lines ++
  (if includeBlank then ',' :: natChars row.blankLines else []) ++
  (if includeComment then ',' :: natChars row.commentLines else []) ++
  ',' :: natChars row.functionCount ++
  ',' :: intChars row.minFunctionLength ++
  ',' :: intChars row.maxFunctionLength ++
  ',' :: fixed2Chars row.averageFunctionLength ++
  ',' :: fixed2Chars row.medianFunctionLength ++ ['\n']

/-- `WebServer::buildCsvReport`. -/
def buildCsvReport (result : CodeStatsResult) : List Char :=
  csvHeaderText result.includeBlankLines result.includeCommentLines ++
  ((collectLanguageRows result).map
    (csvRowText result.includeBlankLines result.includeCommentLines)).flatten

/-- One language object of `WebServer::buildJsonReport`. -/
def jsonObjText (includeBlank includeComment : Bool) (row : LanguageRow) : List Char :=
  "\x7b\"language\":\"".data ++ jsonEscape row.name ++
  "\",\"files\":".data ++ natChars row.files ++
  ",\"lines\":".data ++ natChars row.lines ++
  (if includeBlank then ",\"blankLines\":".data ++ natChars row.blankLines else []) ++
  (if includeComment then ",\"commentLines\":".data ++ natChars row.commentLines else []) ++
  ",\"functions\":\x7b\"count\":".data ++ natChars row.functionCount ++
  ",\"min\":".data ++ intChars row.minFunctionLength ++
  ",\"max\":".data ++ intChars row.maxFunctionLength ++
  ",\"average\":".data ++ doubleChars row.averageFunctionLength ++
  ",\"median\":".data ++ doubleChars row.medianFunctionLength ++
  "\x7d\x7d".data

/-- `WebServer::buildJsonReport`. -/
def buildJsonReport (result : CodeStatsResult) : List Char :=
  "\x7b\"languages\":[".data ++
  (List.intersperse (",".data)
    ((collectLanguageRows result).map
      (jsonObjText result.includeBlankLines result.includeCommentLines))).flatten ++
  "]\x7d".data

/-! ### Spec-side readers of the serialized reports -/

/-- ASCII decimal digit test. -/
def isDigitChar (c : Char) : Bool := decide (48 ≤ c.toNat) && decide (c.toNat ≤ 57)

/-- Value of a digit string. -/
def parseNatChars (s : List Char) : Nat :=
  s.foldl (fun acc c => acc * 10 + (c.toNat - 48)) 0

/-- Modelled from the spec: reads `(language, files, lines)` out of the
data rows of the CSV payload.  Each row is a quoted name, a comma, the
files value, a comma, the lines value, then the remaining columns up to
the newline. -/
def csvRowsFrom : Nat → List Char → Option (List (List Char × Nat × Nat))
  | _, [] => some []
  | 0, _ => none
  | fuel + 1, c0 :: rest =>
    if c0 = '"' then
      let name := rest.takeWhile (fun c => c ≠ '"')
      (match rest.drop (name.length + 1) with
       | c1 :: r2 =>
         if c1 = ',' then
           let fdigits := r2.takeWhile isDigitChar
           if fdigits = [] then none
           else
             (match r2.drop fdigits.length with
              | c2 :: r3 =>
                if c2 = ',' then
                  let ldigits := r3.takeWhile isDigitChar
                  if ldigits = [] then none
                  else
                    let tailText :=
                      ((r3.drop ldigits.length).dropWhile (fun c => c ≠ '\n')).drop 1
                    (match csvRowsFrom fuel tailText with
                     | none => none
                     | some rs => some ((name, parseNatChars fdigits, parseNatChars ldigits) :: rs))
                else none
              | [] => none)
         else none
       | [] => none)
    else none

/-- Modelled from the spec: the language/files/lines triples listed by the
CSV export, in row order (the byte-order mark and header line are skipped
up to the first newline). -/
def csvTriples (text : List Char) : Option (List (List Char × Nat × Nat)) :=
  let body := (text.dropWhile (fun c => c ≠ '\n')).drop 1
  csvRowsFrom body.length body

/-- Consume an expected literal text. -/
def expectTxt (pat t : List Char) : Option (List Char) :=
  if pat.isPrefixOf t then some (t.drop pat.length) else none

/-- Character set of the rendered numeric fields: digits, sign, decimal
point, and the `e`/`+` of `%g` scientific notation. -/
def numberChar (c : Char) : Bool :=
  isDigitChar c || c = '-' || c = '.' || c = 'e' || c = '+'

/-- Modelled from the spec: reads the `(language, files, lines)` values of
successive objects in the `languages` array of the JSON payload, skipping
each object's optional blank/comment fields and its `functions` object. -/
def jsonObjsFrom : Nat → List Char → Option (List (List Char × Nat × Nat))
  | 0, _ => none
  | fuel + 1, t =>
    match expectTxt ("\x7b\"language\":\"".data) t with
    | none => none
    | some r0 =>
      let name := r0.takeWhile (fun c => c ≠ '"')
      (match expectTxt ("\",\"files\":".data) (r0.drop name.length) with
       | none => none
       | some r1 =>
         let fdigits := r1.takeWhile isDigitChar
         if fdigits = [] then none
         else
           (match expectTxt (",\"lines\":".data) (r1.drop fdigits.length) with
            | none => none
            | some r2 =>
              let ldigits := r2.takeWhile isDigitChar
              if ldigits = [] then none
              else
                let r3 := r2.drop ldigits.length
                let r4 := match expectTxt (",\"blankLines\":".data) r3 with
                  | some s => s.dropWhile isDigitChar
                  | none => r3
                let r5 := match expectTxt (",\"commentLines\":".data) r4 with
                  | some s => s.dropWhile isDigitChar
                  | none => r4
                (match expectTxt (",\"functions\":\x7b\"count\":".data) r5 with
                 | none => none
                 | some r6 =>
                   (match expectTxt (",\"min\":".data) (r6.dropWhile isDigitChar) with
                    | none => none
                    | some r7 =>
                      (match expectTxt (",\"max\":".data) (r7.dropWhile numberChar) with
                       | none => none
                       | some r8 =>
                         (match expectTxt (",\"average\":".data) (r8.dropWhile numberChar) with
                          | none => none
                          | some r9 =>
                            (match expectTxt (",\"median\":".data) (r9.dropWhile numberChar) with
                             | none => none
                             | some r10 =>
                               (match expectTxt ("\x7d\x7d".data) (r10.dropWhile numberChar) with
                                | none => none
                                | some rEnd =>
                                  (match rEnd with
                                   | [] => none
                                   | c :: more =>
                                     if c = ',' then
                                       (match jsonObjsFrom fuel more with
                                        | none => none
                                        | some rs =>
                                          some ((name, parseNatChars fdigits,
                                            parseNatChars ldigits) :: rs))
                                     else if c = ']' then
                                       (match more with
                                        | e :: [] =>
                                          if e = Char.ofNat 125 then
                                            some [(name, parseNatChars fdigits,
                                              parseNatChars ldigits)]
                                          else none
                                        | _ => none)
                                     else none)))))))))

/-- Modelled from the spec: the language/files/lines triples listed by the
JSON export, in array order. -/
def jsonTriples (text : List Char) : Option (List (List Char × Nat × Nat)) :=
  match expectTxt ("\x7b\"languages\":[".data) text with
  | none => none
  | some r => if r = "]\x7d".data then some [] else jsonObjsFrom r.length r

/-- A plain language name: printable characters with no JSON/CSV
metacharacters — nothing below space, no double quote, no backslash. -/
def plainName (s : List Char) : Prop :=
  ∀ c ∈ s, 32 ≤ c.toNat ∧ c ≠ '"' ∧ c ≠ '\\'

instance plainNameDec (s : List Char) : Decidable (plainName s) :=
  inferInstanceAs (Decidable (∀ c ∈ s, 32 ≤ c.toNat ∧ c ≠ '"' ∧ c ≠ '\\'))

/-! ### Specification-side comparison definitions -/

/-- Median as the specification words it, over the ascending-sorted length
list: the middle element for an odd count, the mean of the two middle
elements for an even count. -/
def medianSpecOfSorted (s : List Int) : ℚ :=
  if s.length % 2 = 1 then ((s.getD (s.length / 2) 0 : Int) : ℚ)
  else (((s.getD (s.length / 2 - 1) 0 : Int) : ℚ) + ((s.getD (s.length / 2) 0 : Int) : ℚ)) / 2

/-- The containment condition as the claim words it for strings `p`, `q`:
`p` is a prefix of `q` ending at a path boundary — the character of `q`
immediately after the shared prefix is the path separator, or the strings
have equal length. -/
def strAtBoundary (p q : List Char) : Bool :=
  decide (q.take p.length = p) &&
  (decide (q.length = p.length) || decide (q.getD p.length ' ' = '/'))

/-- The signature-acceptance condition as amended: parentheses present and
ordered, no leading `#`, no trailing `;`, first token not a control
keyword, and — unless the signature contains ` operator` — not a namespace
declaration.  (The ` operator` carve-out bypasses only the namespace
filter; the keyword filter always applies.) -/
def signatureAcceptedSpec (signature : List Char) : Bool :=
  let t := trim signature
  let lower := toLowerCopy t
  let parensOk :=
    match findFrom t ['('] 0, findFrom t [')'] 0 with
    | some po, some pc => decide (po ≤ pc)
    | _, _ => false
  let headOk :=
    match findFirstOfIdx lower [' ', '\t', '('] with
    | none => true
    | some i => !(isControlKeyword (lower.take i))
  let namespaceOk :=
    containsSub lower (" operator".data) ||
    !(containsSub lower (" namespace ".data) || startsWithStr lower ("namespace".data))
  !(decide (t = [])) && parensOk && !(decide (t.headD ' ' = '#')) &&
  !(decide (t.getLastD ' ' = ';')) && headOk && namespaceOk

/-- Sum of the per-language `lineCount` fields over the summary map. -/
def sumLineCounts (m : List (String × LanguageSummary)) : Nat :=
  (m.map (fun p => p.2.lineCount)).sum

/-! ### Concrete instance data for the testable properties -/

/-- The three-line brace-language input of the spec's extractor property. -/
def c1Lines : List Line :=
  ["int add(int a, int b) \x7b".data, "    return a + b;".data, "\x7d".data]

/-- A workspace on a symlink-free tree whose requested directory is
missing: `weakly_canonical` succeeds on the composed path (it canonicalizes
the existing prefix and appends the rest), while constructing the directory
iterator fails — exactly the observable behavior of a missing or
inaccessible directory. -/
def fsysMissingDir : Fsys :=
  { canonCurrent := some ["home", "user", "ws"],
    canonReq := fun p => some (lexCollapse p),
    walkFiles := fun _ => none }

/-- A workspace on a symlink-free tree in which every directory exists and
is empty. -/
def fsysEmptyDirs : Fsys :=
  { canonCurrent := some ["home", "user", "ws"],
    canonReq := fun p => some (lexCollapse p),
    walkFiles := fun _ => some [] }

/-- A workspace whose current-path canonicalization succeeds but where
canonicalizing the requested path reports an error. -/
def fsysCanonErr : Fsys :=
  { canonCurrent := some ["home", "user", "ws"],
    canonReq := fun _ => none,
    walkFiles := fun _ => none }

/-- A two-line Python file used to exercise the full pipeline. -/
def pyDemoLines : List Line := ["def f():".data, "    return 1".data]

/-- A workspace containing exactly one readable Python file. -/
def fsysPyFile : Fsys :=
  { canonCurrent := some ["ws"],
    canonReq := fun p => some (lexCollapse p),
    walkFiles := fun _ => some [{ ext := ".py", content := some pyDemoLines }] }

/-- The Python summary produced by analyzing `fsysPyFile`. -/
def pyDemoSummary : LanguageSummary :=
  getSummaryD (analyze fsysPyFile [] {}).languageSummaries "Python"

/-- A small worksheet body for exercising the XLSX container. -/
def demoSheet : Bytes := bytesOfString ("<worksheet/>")

/-- Function statistics of a demonstration Python summary. -/
def demoFnPy : FunctionSummary :=
  { functionCount := 2, minLength := 2, maxLength := 3,
    averageLength := (5 : ℚ) / 2, medianLength := (5 : ℚ) / 2 }

/-- Function statistics of a demonstration C++ summary. -/
def demoFnCpp : FunctionSummary :=
  { functionCount := 1, minLength := 3, maxLength := 3,
    averageLength := 3, medianLength := 3 }

/-- A demonstration analysis result with two languages. -/
def demoResult : CodeStatsResult :=
  { languageSummaries :=
      [("Python", { fileCount := 2, lineCount := 30, functions := demoFnPy }),
       ("C++", { fileCount := 1, lineCount := 10, blankLineCount := 3, functions := demoFnCpp })],
    totalLines := 40,
    includeBlankLines := true }

/-! ## Theorems -/

/-- C1 (counterexample): on the three-line input
`int add(int a, int b) {` / `    return a + b;` / `}` the brace-depth
extractor does NOT report length 2 for `add`: the emitted record list is
not `[("add", 2)]`. -/
theorem c1_brace_length_two_cex :
    ¬ (((analyzeBraceLanguageFile (some c1Lines) "C++" ({} : FunctionSummary)).details.map
        (fun d => (d.name, d.length))) = [("add".data, (2 : Int))]) := by decide

/-- C1 (as amended): the three-line input yields exactly one function
record, named `add`, with length 3 — the signature line plus the two
non-blank body lines (the `return` line and the closing brace line), since
the recorded length starts at the number of buffered signature lines and
every subsequent non-blank line increments it. -/
theorem c1_brace_add_record :
    ((analyzeBraceLanguageFile (some c1Lines) "C++" ({} : FunctionSummary)).details.map
      (fun d => (d.name, d.length))) = [("add".data, (3 : Int))] ∧
    (analyzeBraceLanguageFile (some c1Lines) "C++" ({} : FunctionSummary)).lengths = [3] := by
  decide

/-- C6: finalization computes the median from the ascending-sorted length
list — middle element for an odd count, mean of the two middle elements
for an even count — and in particular lengths `[3,5,9]` give median 5 and
`[3,5,9,11]` give median 7. -/
theorem c6_median_law :
    (∀ fs : FunctionSummary, fs.lengths ≠ [] →
      (finalizeFunctions fs).medianLength = medianSpecOfSorted (sortInts fs.lengths)) ∧
    (finalizeFunctions { lengths := [3, 5, 9] }).medianLength = 5 ∧
    (finalizeFunctions { lengths := [3, 5, 9, 11] }).medianLength = 7 := by
  refine ⟨?_, ?_, ?_⟩
  case refine_2 =>
    simp only [finalizeFunctions]
    rw [if_neg (by decide)]
    norm_num [sortInts, List.insertionSort, List.orderedInsert]
  case refine_3 =>
    simp only [finalizeFunctions]
    rw [if_neg (by decide)]
    norm_num [sortInts, List.insertionSort, List.orderedInsert]
  intro fs h
  unfold finalizeFunctions medianSpecOfSorted
  rw [if_neg h]
  by_cases hn : (sortInts fs.lengths).length % 2 = 0
  · have hn1 : ¬ ((sortInts fs.lengths).length % 2 = 1) := by omega
    simp only [hn, hn1, if_true, if_false]
    push_cast
    ring
  · have hn1 : (sortInts fs.lengths).length % 2 = 1 := by omega
    simp [hn, hn1]

/-- C6 (witness): the general median law applied to the summary with
length list `[9, 3, 5]`. -/
theorem c6_median_law_witness :
    (({ lengths := [9, 3, 5] } : FunctionSummary).lengths ≠ []) ∧
    (finalizeFunctions { lengths := [9, 3, 5] }).medianLength =
      medianSpecOfSorted (sortInts [9, 3, 5]) :=
  ⟨by decide, c6_median_law.1 { lengths := [9, 3, 5] } (by decide)⟩

lemma sortInts_length (l : List Int) : (sortInts l).length = l.length :=
  List.length_insertionSort _ l

lemma sortInts_sorted (l : List Int) : List.Sorted (· ≤ ·) (sortInts l) :=
  List.sorted_insertionSort _ l

lemma sortInts_sum (l : List Int) : (sortInts l).sum = l.sum :=
  (List.perm_insertionSort _ l).sum_eq

lemma sorted_get_mono {l : List Int} (h : List.Sorted (· ≤ ·) l)
    (i j : Fin l.length) (hij : i ≤ j) : l.get i ≤ l.get j := by
  rcases lt_or_eq_of_le hij with hlt | heq
  · exact List.pairwise_iff_get.1 h i j hlt
  · rw [heq]

lemma headD_eq_get {l : List Int} (h : l ≠ []) :
    l.headD 0 = l.get ⟨0, List.length_pos.2 h⟩ := by
  cases l with
  | nil => exact absurd rfl h
  | cons a t => rfl

lemma getLastD_eq_get {l : List Int} (h : l ≠ []) :
    l.getLastD 0 = l.get ⟨l.length - 1, by
      have := List.length_pos.2 h; omega⟩ := by
  rw [List.getLastD_eq_getLast?, List.getLast?_eq_getLast _ h, Option.getD_some,
    List.getLast_eq_get]

lemma sorted_headD_le_getD {l : List Int} (hs : List.Sorted (· ≤ ·) l) {i : Nat}
    (hi : i < l.length) : l.headD 0 ≤ l.getD i 0 := by
  have hne : l ≠ [] := by intro hnil; rw [hnil] at hi; simp at hi
  rw [headD_eq_get hne, List.getD_eq_get _ _ hi]
  exact sorted_get_mono hs _ _ (by simp)

lemma sorted_getD_le_getLastD {l : List Int} (hs : List.Sorted (· ≤ ·) l) {i : Nat}
    (hi : i < l.length) : l.getD i 0 ≤ l.getLastD 0 := by
  have hne : l ≠ [] := by intro hnil; rw [hnil] at hi; simp at hi
  rw [getLastD_eq_get hne, List.getD_eq_get _ _ hi]
  exact sorted_get_mono hs _ _ (by simp; omega)

lemma sorted_headD_le_mem {l : List Int} (hs : List.Sorted (· ≤ ·) l) {x : Int}
    (hx : x ∈ l) : l.headD 0 ≤ x := by
  rcases List.mem_iff_get.1 hx with ⟨i, rfl⟩
  rw [← List.getD_eq_get l 0 i.isLt]
  exact sorted_headD_le_getD hs i.isLt

lemma sorted_mem_le_getLastD {l : List Int} (hs : List.Sorted (· ≤ ·) l) {x : Int}
    (hx : x ∈ l) : x ≤ l.getLastD 0 := by
  rcases List.mem_iff_get.1 hx with ⟨i, rfl⟩
  rw [← List.getD_eq_get l 0 i.isLt]
  exact sorted_getD_le_getLastD hs i.isLt

lemma finalize_stats_bounds {fs : FunctionSummary} (h : fs.lengths ≠ []) :
    ((finalizeFunctions fs).minLength : ℚ) ≤ (finalizeFunctions fs).medianLength ∧
    (finalizeFunctions fs).medianLength ≤ ((finalizeFunctions fs).maxLength : ℚ) ∧
    ((finalizeFunctions fs).minLength : ℚ) ≤ (finalizeFunctions fs).averageLength ∧
    (finalizeFunctions fs).averageLength ≤ ((finalizeFunctions fs).maxLength : ℚ) := by
  unfold finalizeFunctions
  rw [if_neg h]
  simp only
  have hlen : (sortInts fs.lengths).length = fs.lengths.length := sortInts_length _
  have hne : sortInts fs.lengths ≠ [] := by
    intro hnil
    exact h (List.length_eq_zero.1 (by rw [← hlen, hnil]; rfl))
  have hpos : 0 < (sortInts fs.lengths).length := List.length_pos.2 hne
  have hsort : List.Sorted (· ≤ ·) (sortInts fs.lengths) := sortInts_sorted _
  set s := sortInts fs.lengths with hsdef
  have hposQ : (0 : ℚ) < (s.length : ℚ) := by exact_mod_cast hpos
  constructor
  · -- min ≤ median
    by_cases hpar : s.length % 2 = 0
    · rw [if_pos hpar]
      have h1 : s.headD 0 ≤ s.getD (s.length / 2 - 1) 0 :=
        sorted_headD_le_getD hsort (by omega)
      have h2 : s.headD 0 ≤ s.getD (s.length / 2) 0 :=
        sorted_headD_le_getD hsort (by omega)
      rw [le_div_iff₀ (by norm_num : (0 : ℚ) < 2)]
      have h1q : ((s.headD 0 : Int) : ℚ) ≤ ((s.getD (s.length / 2 - 1) 0 : Int) : ℚ) := by
        exact_mod_cast h1
      have h2q : ((s.headD 0 : Int) : ℚ) ≤ ((s.getD (s.length / 2) 0 : Int) : ℚ) := by
        exact_mod_cast h2
      push_cast
      linarith
    · rw [if_neg hpar]
      exact_mod_cast sorted_headD_le_getD hsort (by omega)
  constructor
  · -- median ≤ max
    by_cases hpar : s.length % 2 = 0
    · rw [if_pos hpar]
      have h1 : s.getD (s.length / 2 - 1) 0 ≤ s.getLastD 0 :=
        sorted_getD_le_getLastD hsort (by omega)
      have h2 : s.getD (s.length / 2) 0 ≤ s.getLastD 0 :=
        sorted_getD_le_getLastD hsort (by omega)
      rw [div_le_iff₀ (by norm_num : (0 : ℚ) < 2)]
      have h1q : ((s.getD (s.length / 2 - 1) 0 : Int) : ℚ) ≤ ((s.getLastD 0 : Int) : ℚ) := by
        exact_mod_cast h1
      have h2q : ((s.getD (s.length / 2) 0 : Int) : ℚ) ≤ ((s.getLastD 0 : Int) : ℚ) := by
        exact_mod_cast h2
      push_cast
      linarith
    · rw [if_neg hpar]
      exact_mod_cast sorted_getD_le_getLastD hsort (by omega)
  constructor
  · -- min ≤ average
    have hsum : s.length • (s.headD 0) ≤ s.sum :=
      List.card_nsmul_le_sum s _ (fun x hx => sorted_headD_le_mem hsort hx)
    rw [nsmul_eq_mul] at hsum
    rw [le_div_iff₀ hposQ, mul_comm]
    exact_mod_cast hsum
  · -- average ≤ max
    have hsum : s.sum ≤ s.length • (s.getLastD 0) :=
      List.sum_le_card_nsmul s _ (fun x hx => sorted_mem_le_getLastD hsort hx)
    rw [nsmul_eq_mul] at hsum
    rw [div_le_iff₀ hposQ, mul_comm]
    exact_mod_cast hsum

lemma finalize_count_pos {fs : FunctionSummary}
    (h : 1 ≤ (finalizeFunctions fs).functionCount) : fs.lengths ≠ [] := by
  intro hnil
  unfold finalizeFunctions at h
  rw [if_pos hnil] at h
  simp at h

lemma tryEmplace_mem {m : List (String × LanguageSummary)} {k lang : String}
    {s : LanguageSummary} (h : (k, s) ∈ tryEmplaceSummary m lang) :
    (k, s) ∈ m ∨ s = ({} : LanguageSummary) := by
  unfold tryEmplaceSummary at h
  split at h
  · exact Or.inl h
  · rcases List.mem_append.1 h with h1 | h1
    · exact Or.inl h1
    · simp at h1
      exact Or.inr h1.2

lemma forceRequested_mem {ls : List String} {r0 : CodeStatsResult} {k : String}
    {s : LanguageSummary}
    (h : (k, s) ∈ (forceRequested ls r0).languageSummaries) :
    (k, s) ∈ r0.languageSummaries ∨ s = ({} : LanguageSummary) := by
  induction ls generalizing r0 with
  | nil => exact Or.inl h
  | cons a t ih =>
    rcases ih h with h1 | h1
    · exact tryEmplace_mem h1
    · exact Or.inr h1

lemma analyze_mem_shape {fsys : Fsys} {root : List String} {options : CodeStatsOptions}
    {k : String} {s : LanguageSummary}
    (h : (k, s) ∈ (analyze fsys root options).languageSummaries) :
    (∃ fs0, s.functions = finalizeFunctions fs0) ∨ s.functions = ({} : FunctionSummary) := by
  unfold analyze at h
  cases hc : fsys.canonCurrent with
  | none => rw [hc] at h; simp [baseResult] at h
  | some ws =>
    rw [hc] at h
    simp only [] at h
    cases hr : fsys.canonReq (ws ++ if root = [] then ["."] else root) with
    | none => rw [hr] at h; simp [baseResult] at h
    | some req =>
      rw [hr] at h
      simp only [] at h
      split at h
      · simp [baseResult] at h
      · rcases forceRequested_mem h with h1 | h1
        · unfold finalizeSummaries at h1
          simp only [List.mem_map] at h1
          rcases h1 with ⟨p, _, hp⟩
          left
          refine ⟨p.2.functions, ?_⟩
          have := congrArg Prod.snd hp
          simp at this
          rw [← this]
        · right
          rw [h1]

/-- C7: for every finalized function summary recording at least one
function, `min ≤ median ≤ max` and `min ≤ average ≤ max`; and the same
bounds hold for every language summary found in any `analyze` result. -/
theorem c7_stats_bounds :
    (∀ fs : FunctionSummary, 1 ≤ (finalizeFunctions fs).functionCount →
      ((finalizeFunctions fs).minLength : ℚ) ≤ (finalizeFunctions fs).medianLength ∧
      (finalizeFunctions fs).medianLength ≤ ((finalizeFunctions fs).maxLength : ℚ) ∧
      ((finalizeFunctions fs).minLength : ℚ) ≤ (finalizeFunctions fs).averageLength ∧
      (finalizeFunctions fs).averageLength ≤ ((finalizeFunctions fs).maxLength : ℚ)) ∧
    (∀ (fsys : Fsys) (root : List String) (options : CodeStatsOptions) (k : String)
      (s : LanguageSummary), (k, s) ∈ (analyze fsys root options).languageSummaries →
      1 ≤ s.functions.functionCount →
      (s.functions.minLength : ℚ) ≤ s.functions.medianLength ∧
      s.functions.medianLength ≤ (s.functions.maxLength : ℚ) ∧
      (s.functions.minLength : ℚ) ≤ s.functions.averageLength ∧
      s.functions.averageLength ≤ (s.functions.maxLength : ℚ)) := by
  constructor
  · intro fs h
    exact finalize_stats_bounds (finalize_count_pos h)
  · intro fsys root options k s hmem hcount
    rcases analyze_mem_shape hmem with ⟨fs0, hshape⟩ | hshape
    · rw [hshape] at hcount ⊢
      exact finalize_stats_bounds (finalize_count_pos hcount)
    · rw [hshape] at hcount
      simp at hcount

lemma lookup_none_keys {m : List (String × LanguageSummary)} {k : String}
    (h : m.lookup k = none) : k ∉ m.map Prod.fst := by
  induction m with
  | nil => simp
  | cons a t ih =>
    simp only [List.lookup] at h
    by_cases hk : k = a.1
    · rw [show (k == a.1) = true by simp [hk]] at h
      simp at h
    · rw [show (k == a.1) = false by simp [hk]] at h
      simp [hk, ih h]

lemma setSummary_cons_ne {a : String × LanguageSummary} {t : List (String × LanguageSummary)}
    {k : String} {v : LanguageSummary} (h : a.1 ≠ k) :
    setSummary (a :: t) k v = a :: setSummary t k v := by
  unfold setSummary
  rw [show List.lookup k (a :: t) = List.lookup k t by
    simp [List.lookup, show (k == a.1) = false by simp [Ne.symm h]]]
  split
  · simp [h]
  · rfl

lemma getSummaryD_cons_ne {a : String × LanguageSummary} {t : List (String × LanguageSummary)}
    {k : String} (h : a.1 ≠ k) : getSummaryD (a :: t) k = getSummaryD t k := by
  unfold getSummaryD
  rw [show List.lookup k (a :: t) = List.lookup k t by
    simp [List.lookup, show (k == a.1) = false by simp [Ne.symm h]]]

lemma sumLineCounts_setSummary {m : List (String × LanguageSummary)} {k : String}
    {v : LanguageSummary} (hnd : (m.map Prod.fst).Nodup) :
    sumLineCounts (setSummary m k v) + (getSummaryD m k).lineCount
      = sumLineCounts m + v.lineCount := by
  induction m with
  | nil => simp [setSummary, getSummaryD, sumLineCounts, List.lookup]
  | cons a t ih =>
    simp only [List.map_cons, List.nodup_cons] at hnd
    obtain ⟨hka, hndt⟩ := hnd
    by_cases hak : a.1 = k
    · have hmap : t.map (fun p => if p.1 = k then (k, v) else p) = t := by
        conv_rhs => rw [← List.map_id t]
        apply List.map_congr_left
        intro p hp
        have : p.1 ≠ k := by
          intro hpk
          apply hka
          rw [hak]
          exact List.mem_map.2 ⟨p, hp, hpk⟩
        simp [this]
      have hset : setSummary (a :: t) k v = (k, v) :: t := by
        unfold setSummary
        rw [show List.lookup k (a :: t) = some a.2 by
          simp [List.lookup, show (k == a.1) = true by simp [hak]]]
        simp [hak, hmap]
      have hget : getSummaryD (a :: t) k = a.2 := by
        unfold getSummaryD
        rw [show List.lookup k (a :: t) = some a.2 by
          simp [List.lookup, show (k == a.1) = true by simp [hak]]]
      rw [hset, hget]
      simp [sumLineCounts]
      omega
    · rw [setSummary_cons_ne hak, getSummaryD_cons_ne hak]
      have := ih hndt
      simp only [sumLineCounts, List.map_cons, List.sum_cons] at this ⊢
      omega

lemma setSummary_keys_nodup {m : List (String × LanguageSummary)} {k : String}
    {v : LanguageSummary} (h : (m.map Prod.fst).Nodup) :
    ((setSummary m k v).map Prod.fst).Nodup := by
  unfold setSummary
  split
  · rw [List.map_map]
    have heq : (Prod.fst ∘ fun p : String × LanguageSummary =>
        if p.1 = k then (k, v) else p) = Prod.fst := by
      funext p
      by_cases h2 : p.1 = k <;> simp [h2]
    rw [heq]
    exact h
  · rename_i hnone
    rw [List.map_append]
    have hkm : k ∉ m.map Prod.fst :=
      lookup_none_keys (Option.not_isSome_iff_eq_none.1 hnone)
    simp [List.nodup_append, h, hkm]

lemma updateSummary_lineCount (entry : FileEntry) (languageKey : String)
    (options : CodeStatsOptions) (metrics : LineMetrics) (s0 : LanguageSummary) :
    (updateSummaryForFile entry languageKey options metrics s0).lineCount
      = s0.lineCount + metrics.logical := by
  unfold updateSummaryForFile
  repeat' split
  all_goals rfl

lemma visitFile_inv {entry : FileEntry} {r : CodeStatsResult} {o : CodeStatsOptions}
    (h1 : r.totalLines = sumLineCounts r.languageSummaries)
    (h2 : (r.languageSummaries.map Prod.fst).Nodup) :
    (visitFile entry r o).totalLines = sumLineCounts (visitFile entry r o).languageSummaries ∧
    ((visitFile entry r o).languageSummaries.map Prod.fst).Nodup := by
  unfold visitFile
  cases hkey : languageKeyOf entry.ext with
  | none => exact ⟨h1, h2⟩
  | some key =>
    simp only []
    split
    · exact ⟨h1, h2⟩
    · refine ⟨?_, setSummary_keys_nodup h2⟩
      have hsum := @sumLineCounts_setSummary r.languageSummaries key
        (updateSummaryForFile entry key o
          (computeLineMetrics entry.content key o.includeBlankLines o.includeCommentLines)
          (getSummaryD r.languageSummaries key)) h2
      rw [updateSummary_lineCount] at hsum
      simp only []
      omega

lemma foldVisit_inv (entries : List FileEntry) (o : CodeStatsOptions) :
    ∀ r : CodeStatsResult,
      r.totalLines = sumLineCounts r.languageSummaries →
      (r.languageSummaries.map Prod.fst).Nodup →
      ((entries.foldl (fun r2 e => visitFile e r2 o) r).totalLines =
        sumLineCounts (entries.foldl (fun r2 e => visitFile e r2 o) r).languageSummaries ∧
      ((entries.foldl (fun r2 e => visitFile e r2 o) r).languageSummaries.map Prod.fst).Nodup) := by
  induction entries with
  | nil => exact fun r h1 h2 => ⟨h1, h2⟩
  | cons e t ih =>
    intro r h1 h2
    have hstep := @visitFile_inv e r o h1 h2
    exact ih _ hstep.1 hstep.2

lemma walkResult_inv (fsys : Fsys) (o : CodeStatsOptions) (dir : List String) :
    (walkResult fsys o (baseResult o) dir).totalLines =
      sumLineCounts (walkResult fsys o (baseResult o) dir).languageSummaries ∧
    ((walkResult fsys o (baseResult o) dir).languageSummaries.map Prod.fst).Nodup := by
  unfold walkResult
  cases fsys.walkFiles dir with
  | none => simp [baseResult, sumLineCounts]
  | some entries =>
    exact foldVisit_inv entries o (baseResult o) (by simp [baseResult, sumLineCounts]) (by simp [baseResult])

lemma finalizeSummaries_inv (r : CodeStatsResult)
    (h1 : r.totalLines = sumLineCounts r.languageSummaries)
    (h2 : (r.languageSummaries.map Prod.fst).Nodup) :
    (finalizeSummaries r).totalLines = sumLineCounts (finalizeSummaries r).languageSummaries ∧
    ((finalizeSummaries r).languageSummaries.map Prod.fst).Nodup := by
  unfold finalizeSummaries
  constructor
  · simp only [sumLineCounts, List.map_map] at h1 ⊢
    exact h1
  · simp only [List.map_map]
    have heq : (Prod.fst ∘ fun p : String × LanguageSummary =>
        (p.1, { p.2 with functions := finalizeFunctions p.2.functions })) = Prod.fst := by
      funext p; rfl
    rw [heq]
    exact h2

lemma sumLineCounts_tryEmplace (m : List (String × LanguageSummary)) (k : String) :
    sumLineCounts (tryEmplaceSummary m k) = sumLineCounts m := by
  unfold tryEmplaceSummary
  split
  · rfl
  · simp [sumLineCounts]

lemma tryEmplace_keys_nodup {m : List (String × LanguageSummary)} {k : String}
    (h : (m.map Prod.fst).Nodup) : ((tryEmplaceSummary m k).map Prod.fst).Nodup := by
  unfold tryEmplaceSummary
  split
  · exact h
  · rename_i hnone
    rw [List.map_append]
    have hkm : k ∉ m.map Prod.fst :=
      lookup_none_keys (Option.not_isSome_iff_eq_none.1 hnone)
    simp [List.nodup_append, h, hkm]

lemma forceRequested_inv (ls : List String) :
    ∀ r : CodeStatsResult,
      r.totalLines = sumLineCounts r.languageSummaries →
      (r.languageSummaries.map Prod.fst).Nodup →
      ((forceRequested ls r).totalLines =
        sumLineCounts (forceRequested ls r).languageSummaries ∧
      ((forceRequested ls r).languageSummaries.map Prod.fst).Nodup) := by
  induction ls with
  | nil => exact fun r h1 h2 => ⟨h1, h2⟩
  | cons a t ih =>
    intro r h1 h2
    have heq : forceRequested (a :: t) r = forceRequested t
      { r with
          languageSummaries := tryEmplaceSummary r.languageSummaries a,
          includedLanguages := insertLang r.includedLanguages a } := rfl
    rw [heq]
    exact ih _ (by simpa [sumLineCounts_tryEmplace] using h1) (tryEmplace_keys_nodup h2)

/-- C5: for every file-system environment, root and option set, the
returned result satisfies `totalLines` equal to the sum of the
per-language `lineCount` values. -/
theorem c5_totalLines_sum (fsys : Fsys) (root : List String) (options : CodeStatsOptions) :
    (analyze fsys root options).totalLines =
      sumLineCounts (analyze fsys root options).languageSummaries := by
  unfold analyze
  cases fsys.canonCurrent with
  | none => simp [baseResult, sumLineCounts]
  | some ws =>
    simp only []
    cases fsys.canonReq (ws ++ if root = [] then ["."] else root) with
    | none => simp [baseResult, sumLineCounts]
    | some req =>
      simp only []
      split
      · simp [baseResult, sumLineCounts]
      · have hwalk := walkResult_inv fsys options req
        have hfin := finalizeSummaries_inv _ hwalk.1 hwalk.2
        exact (forceRequested_inv options.languages _ hfin.1 hfin.2).1

lemma visitFile_flags (entry : FileEntry) (r : CodeStatsResult) (o : CodeStatsOptions) :
    (visitFile entry r o).withinWorkspace = r.withinWorkspace ∧
    (visitFile entry r o).directoryExists = r.directoryExists := by
  unfold visitFile
  cases languageKeyOf entry.ext with
  | none => exact ⟨rfl, rfl⟩
  | some key =>
    simp only []
    split
    · exact ⟨rfl, rfl⟩
    · exact ⟨rfl, rfl⟩

lemma foldVisit_flags (entries : List FileEntry) (o : CodeStatsOptions) :
    ∀ r : CodeStatsResult,
      (entries.foldl (fun r2 e => visitFile e r2 o) r).withinWorkspace = r.withinWorkspace ∧
      (entries.foldl (fun r2 e => visitFile e r2 o) r).directoryExists = r.directoryExists := by
  induction entries with
  | nil => exact fun r => ⟨rfl, rfl⟩
  | cons e t ih =>
    intro r
    have hstep := visitFile_flags e r o
    have htail := ih (visitFile e r o)
    exact ⟨htail.1.trans hstep.1, htail.2.trans hstep.2⟩

lemma forceRequested_flags (ls : List String) :
    ∀ r : CodeStatsResult,
      (forceRequested ls r).withinWorkspace = r.withinWorkspace ∧
      (forceRequested ls r).directoryExists = r.directoryExists := by
  induction ls with
  | nil => exact fun r => ⟨rfl, rfl⟩
  | cons a t ih =>
    intro r
    have heq : forceRequested (a :: t) r = forceRequested t
      { r with
          languageSummaries := tryEmplaceSummary r.languageSummaries a,
          includedLanguages := insertLang r.includedLanguages a } := rfl
    rw [heq]
    exact ih _

lemma mainPath_flags (fsys : Fsys) (o : CodeStatsOptions) (dir : List String)
    (ls : List String) :
    (forceRequested ls (finalizeSummaries (walkResult fsys o (baseResult o) dir))).withinWorkspace
      = true ∧
    (forceRequested ls (finalizeSummaries (walkResult fsys o (baseResult o) dir))).directoryExists
      = true := by
  have hforce := forceRequested_flags ls (finalizeSummaries (walkResult fsys o (baseResult o) dir))
  have hwalk : (walkResult fsys o (baseResult o) dir).withinWorkspace = true ∧
      (walkResult fsys o (baseResult o) dir).directoryExists = true := by
    unfold walkResult
    cases fsys.walkFiles dir with
    | none => exact ⟨rfl, rfl⟩
    | some entries =>
      have := foldVisit_flags entries o (baseResult o)
      exact ⟨this.1, this.2⟩
  exact ⟨hforce.1.trans hwalk.1, hforce.2.trans hwalk.2⟩

/-- C2 (counterexample): for a missing or inaccessible directory —
`weakly_canonical` succeeds on the composed path while the directory
iterator constructor fails — `analyze` returns `directoryExists = true`,
not `false` as claimed; only canonicalization errors clear the flag. -/
theorem c2_missing_dir_cex :
    fsysMissingDir.walkFiles (lexCollapse (["home", "user", "ws"] ++ ["missing"])) = none ∧
    (analyze fsysMissingDir ["missing"] {}).directoryExists = true :=
  ⟨rfl, rfl⟩

/-- C2 (as amended): `directoryExists = false` is produced exactly by the
canonicalization failures (both flags clear when the current path cannot
be canonicalized, the directory flag alone when the requested path cannot),
and whenever the result carries `withinWorkspace = false` or
`directoryExists = false` all counters are zero, the summary map is empty
and no file was visited. -/
theorem c2_failfast (fsys : Fsys) (root : List String) (options : CodeStatsOptions) :
    (fsys.canonCurrent = none →
      (analyze fsys root options).withinWorkspace = false ∧
      (analyze fsys root options).directoryExists = false) ∧
    (∀ ws : List String, fsys.canonCurrent = some ws →
      fsys.canonReq (ws ++ if root = [] then ["."] else root) = none →
      (analyze fsys root options).directoryExists = false) ∧
    ((analyze fsys root options).withinWorkspace = false ∨
      (analyze fsys root options).directoryExists = false →
      (analyze fsys root options).totalLines = 0 ∧
      (analyze fsys root options).totalBlankLines = 0 ∧
      (analyze fsys root options).totalCommentLines = 0 ∧
      (analyze fsys root options).languageSummaries = [] ∧
      (analyze fsys root options).includedLanguages = []) := by
  unfold analyze
  cases hc : fsys.canonCurrent with
  | none =>
    refine ⟨fun _ => ⟨rfl, rfl⟩, fun ws hws => ?_, fun _ => ?_⟩
    · exact absurd hws (by simp)
    · exact ⟨rfl, rfl, rfl, rfl, rfl⟩
  | some ws =>
    simp only []
    cases hr : fsys.canonReq (ws ++ if root = [] then ["."] else root) with
    | none =>
      refine ⟨fun habs => absurd habs (by simp), fun ws2 hws2 hr2 => rfl,
        fun _ => ⟨rfl, rfl, rfl, rfl, rfl⟩⟩
    | some req =>
      simp only []
      refine ⟨fun habs => absurd habs (by simp),
        fun ws2 hws2 hr2 => ?_, ?_⟩
      · have hws3 : ws2 = ws := by
          injection hws2 with h
          exact h.symm
        rw [hws3] at hr2
        exact absurd (hr.symm.trans hr2) (by simp)
      · split
        · exact fun _ => ⟨rfl, rfl, rfl, rfl, rfl⟩
        · intro hflag
          have hmain := mainPath_flags fsys options req options.languages
          rcases hflag with hflag | hflag
          · rw [hmain.1] at hflag; cases hflag
          · rw [hmain.2] at hflag; cases hflag

/-- C2 (witness): the canonicalization-failure clause applied to a
workspace whose requested-path canonicalization errors out. -/
theorem c2_failfast_witness :
    fsysCanonErr.canonCurrent = some ["home", "user", "ws"] ∧
    fsysCanonErr.canonReq (["home", "user", "ws"] ++
      if (["x"] : List String) = [] then ["."] else ["x"]) = none ∧
    (analyze fsysCanonErr ["x"] {}).directoryExists = false :=
  ⟨rfl, rfl, (c2_failfast fsysCanonErr ["x"] {}).2.1 ["home", "user", "ws"] rfl rfl⟩

lemma isSubDir_boundary {p q : List Char} (h : isSubDir p q = true) :
    strAtBoundary p q = true := by
  unfold isSubDir at h
  unfold strAtBoundary
  simp only [Bool.and_eq_true, Bool.or_eq_true, decide_eq_true_eq] at h ⊢
  exact ⟨h.1.2, h.2⟩

/-- C4 (counterexample): for a requested subdirectory `c` of the
workspace, the canonical requested string `/home/user/ws/c` is not a
prefix of the workspace string `/home/user/ws` at a path boundary, yet
`analyze` reports `withinWorkspace = true` — the claim's prefix direction
is reversed relative to the code's check. -/
theorem c4_prefix_direction_cex :
    strAtBoundary (pathStr (lexCollapse (["home", "user", "ws"] ++ ["c"])))
      (pathStr ["home", "user", "ws"]) = false ∧
    (analyze fsysEmptyDirs ["c"] {}).withinWorkspace = true :=
  ⟨by decide, rfl⟩

/-- C4 (as amended): requesting `../../etc` relative to the workspace
yields `withinWorkspace = false` with all counters zero; in general,
`withinWorkspace` is false whenever the workspace's string is not a prefix
of the canonicalized requested path's string at a path boundary. -/
theorem c4_containment :
    ((analyze fsysEmptyDirs ["..", "..", "etc"] {}).withinWorkspace = false ∧
     (analyze fsysEmptyDirs ["..", "..", "etc"] {}).totalLines = 0 ∧
     (analyze fsysEmptyDirs ["..", "..", "etc"] {}).totalBlankLines = 0 ∧
     (analyze fsysEmptyDirs ["..", "..", "etc"] {}).totalCommentLines = 0 ∧
     (analyze fsysEmptyDirs ["..", "..", "etc"] {}).languageSummaries = []) ∧
    (∀ (fsys : Fsys) (root : List String) (options : CodeStatsOptions) (ws req : List String),
      fsys.canonCurrent = some ws →
      fsys.canonReq (ws ++ if root = [] then ["."] else root) = some req →
      strAtBoundary (pathStr ws) (pathStr req) = false →
      (analyze fsys root options).withinWorkspace = false ∧
      (analyze fsys root options).totalLines = 0 ∧
      (analyze fsys root options).totalBlankLines = 0 ∧
      (analyze fsys root options).totalCommentLines = 0 ∧
      (analyze fsys root options).languageSummaries = []) := by
  constructor
  · exact ⟨rfl, rfl, rfl, rfl, rfl⟩
  · intro fsys root options ws req hc hr hb
    have hsub : isSubDir (pathStr ws) (pathStr req) = false := by
      cases hs : isSubDir (pathStr ws) (pathStr req)
      · rfl
      · rw [isSubDir_boundary hs] at hb; cases hb
    unfold analyze
    rw [hc]
    simp only []
    rw [hr]
    simp only [hsub]
    exact ⟨rfl, rfl, rfl, rfl, rfl⟩

/-- C4 (witness): the general containment clause applied to the
`../../etc` request. -/
theorem c4_containment_witness :
    fsysEmptyDirs.canonCurrent = some ["home", "user", "ws"] ∧
    fsysEmptyDirs.canonReq (["home", "user", "ws"] ++
      if (["..", "..", "etc"] : List String) = [] then ["."] else ["..", "..", "etc"]) =
      some ["home", "etc"] ∧
    strAtBoundary (pathStr ["home", "user", "ws"]) (pathStr ["home", "etc"]) = false ∧
    ((analyze fsysEmptyDirs ["..", "..", "etc"] {}).withinWorkspace = false ∧
     (analyze fsysEmptyDirs ["..", "..", "etc"] {}).totalLines = 0 ∧
     (analyze fsysEmptyDirs ["..", "..", "etc"] {}).totalBlankLines = 0 ∧
     (analyze fsysEmptyDirs ["..", "..", "etc"] {}).totalCommentLines = 0 ∧
     (analyze fsysEmptyDirs ["..", "..", "etc"] {}).languageSummaries = []) :=
  ⟨rfl, rfl, by decide,
    c4_containment.2 fsysEmptyDirs ["..", "..", "etc"] {} ["home", "user", "ws"]
      ["home", "etc"] rfl rfl (by decide)⟩

/-- C8 (counterexample): the signature `return operator+(int a) {`
contains an operator overload and satisfies every other acceptance
condition of the claim — parentheses present and ordered, no leading `#`,
no trailing `;`, not a namespace declaration — yet is rejected, because
the keyword filter runs before the ` operator` carve-out. -/
theorem c8_operator_keyword_cex :
    looksLikeFunctionSignature ("return operator+(int a) \x7b".data) = false ∧
    containsSub (toLowerCopy (trim ("return operator+(int a) \x7b".data)))
      (" operator".data) = true ∧
    (match findFrom (trim ("return operator+(int a) \x7b".data)) ['('] 0,
        findFrom (trim ("return operator+(int a) \x7b".data)) [')'] 0 with
      | some po, some pc => decide (po ≤ pc)
      | _, _ => false) = true ∧
    ¬ ((trim ("return operator+(int a) \x7b".data)).headD ' ' = '#') ∧
    ¬ ((trim ("return operator+(int a) \x7b".data)).getLastD ' ' = ';') ∧
    ¬ (containsSub (toLowerCopy (trim ("return operator+(int a) \x7b".data)))
        (" namespace ".data) = true ∨
       startsWithStr (toLowerCopy (trim ("return operator+(int a) \x7b".data)))
        ("namespace".data) = true) := by
  decide

/-- C8 (as amended): a buffered signature is accepted exactly when it is
non-blank, contains `(` and `)` with `)` not before `(`, does not start
with `#` or end with `;`, its first whitespace-or-parenthesis-delimited
lower-cased token is not a control-flow/declaration keyword, and — unless
it contains ` operator`, which bypasses only the namespace filter — it is
not a namespace declaration. -/
theorem c8_signature_filter (s : List Char) :
    looksLikeFunctionSignature s = signatureAcceptedSpec s := by
  unfold looksLikeFunctionSignature signatureAcceptedSpec
  by_cases ht : trim s = []
  · simp [ht]
  · simp only [if_neg ht]
    cases hpo : findFrom (trim s) ['('] 0 with
    | none =>
      cases hpc : findFrom (trim s) [')'] 0 <;> simp [ht]
    | some po =>
      cases hpc : findFrom (trim s) [')'] 0 with
      | none => simp [ht]
      | some pc =>
        simp only []
        by_cases hcmp : pc < po
        · have hnle : ¬ (po ≤ pc) := by omega
          simp [hcmp, hnle, ht]
        · have hle : (decide (po ≤ pc)) = true := decide_eq_true (by omega)
          simp only [if_neg hcmp, hle]
          have hok : (match findFirstOfIdx (toLowerCopy (trim s)) [' ', '\t', '('] with
              | none => true
              | some i => !isControlKeyword ((toLowerCopy (trim s)).take i)) =
            !(match findFirstOfIdx (toLowerCopy (trim s)) [' ', '\t', '('] with
              | none => false
              | some firstSpace => isControlKeyword ((toLowerCopy (trim s)).take firstSpace)) := by
            cases findFirstOfIdx (toLowerCopy (trim s)) [' ', '\t', '('] <;> rfl
          rw [hok]
          generalize (match findFirstOfIdx (toLowerCopy (trim s)) [' ', '\t', '('] with
              | none => false
              | some firstSpace =>
                  isControlKeyword ((toLowerCopy (trim s)).take firstSpace)) = R
          generalize decide ((trim s).headD ' ' = '#') = A
          generalize decide ((trim s).getLastD ' ' = ';') = B
          generalize containsSub (toLowerCopy (trim s)) (" operator".data) = P
          generalize (containsSub (toLowerCopy (trim s)) (" namespace ".data) ||
              startsWithStr (toLowerCopy (trim s)) ("namespace".data)) = N
          cases A <;> cases B <;> cases R <;> cases P <;> cases N <;> simp [ht]

lemma updateSummary_noContent {entry : FileEntry} (languageKey : String)
    (options : CodeStatsOptions) (s0 : LanguageSummary) (hc : entry.content = none) :
    updateSummaryForFile entry languageKey options ({} : LineMetrics) s0 =
      { s0 with fileCount := s0.fileCount + 1 } := by
  unfold updateSummaryForFile
  rw [hc]
  simp only [analyzePythonFile, analyzeBraceLanguageFile]
  repeat' split
  all_goals simp [LanguageSummary.mk.injEq]

/-- C10: a file whose extension is recognized (and whose language passes
the option filter) but which cannot be opened for reading still increments
that language's `fileCount` by 1 while contributing zero logical, blank
and comment lines and zero function records: the visit only bumps the file
count and records the language as included. -/
theorem c10_unreadable_file (entry : FileEntry) (r : CodeStatsResult)
    (o : CodeStatsOptions) (key : String)
    (hkey : languageKeyOf entry.ext = some key)
    (hallow : o.languages = [] ∨ o.languages.contains key = true)
    (hcontent : entry.content = none) :
    visitFile entry r o =
      { r with
          includedLanguages := insertLang r.includedLanguages key,
          languageSummaries := setSummary r.languageSummaries key
            { getSummaryD r.languageSummaries key with
                fileCount := (getSummaryD r.languageSummaries key).fileCount + 1 } } := by
  unfold visitFile
  rw [hkey]
  have hcond : (decide (o.languages ≠ []) && !(o.languages.contains key)) = false := by
    rcases hallow with h | h
    · simp [h]
    · have hm : key ∈ o.languages := by simpa using h
      simp [hm]
  simp only [hcond, Bool.false_eq_true, if_false]
  rw [hcontent]
  have hmetrics : computeLineMetrics none key o.includeBlankLines o.includeCommentLines
      = ({} : LineMetrics) := rfl
  rw [hmetrics]
  rw [updateSummary_noContent key o (getSummaryD r.languageSummaries key) hcontent]
  simp

/-- C10 (witness): an unreadable Python file visited against the empty
result. -/
theorem c10_unreadable_file_witness :
    languageKeyOf ".py" = some "Python" ∧
    visitFile { ext := ".py", content := none } ({} : CodeStatsResult) {} =
      { ({} : CodeStatsResult) with
          includedLanguages := insertLang ({} : CodeStatsResult).includedLanguages "Python",
          languageSummaries := setSummary ({} : CodeStatsResult).languageSummaries "Python"
            { getSummaryD ({} : CodeStatsResult).languageSummaries "Python" with
                fileCount := (getSummaryD ({} : CodeStatsResult).languageSummaries
                  "Python").fileCount + 1 } } :=
  ⟨rfl, c10_unreadable_file { ext := ".py", content := none } {} {} "Python" rfl
    (Or.inl rfl) rfl⟩

/-- C7 (witness): the statistics bounds at the summary with lengths
`[3, 5, 9]`. -/
theorem c7_stats_bounds_witness :
    (1 ≤ (finalizeFunctions { lengths := [3, 5, 9] }).functionCount) ∧
    (((finalizeFunctions { lengths := [3, 5, 9] }).minLength : ℚ) ≤
        (finalizeFunctions { lengths := [3, 5, 9] }).medianLength ∧
      (finalizeFunctions { lengths := [3, 5, 9] }).medianLength ≤
        ((finalizeFunctions { lengths := [3, 5, 9] }).maxLength : ℚ) ∧
      ((finalizeFunctions { lengths := [3, 5, 9] }).minLength : ℚ) ≤
        (finalizeFunctions { lengths := [3, 5, 9] }).averageLength ∧
      (finalizeFunctions { lengths := [3, 5, 9] }).averageLength ≤
        ((finalizeFunctions { lengths := [3, 5, 9] }).maxLength : ℚ)) :=
  ⟨by decide, c7_stats_bounds.1 { lengths := [3, 5, 9] } (by decide)⟩

lemma un16 (v : Nat) :
    (v % 65536) % 256 + 256 * ((v % 65536) / 256 % 256) = v % 65536 := by
  omega

lemma un32 (v : Nat) :
    v % 256 + 256 * (v / 256 % 256) + 65536 * (v / 65536 % 256) +
      16777216 * (v / 16777216 % 256) = v % 4294967296 := by
  omega

lemma zeroLE16 : (0 : Nat) % 256 + 256 * (0 / 256 % 256) = 0 := by norm_num

lemma zipLocalChunk_length (e : ZipEntry) :
    (zipLocalChunk e).length = 30 + e.name.length + e.content.length := by
  simp [zipLocalChunk, writeLE16, writeLE32]
  omega

lemma zipCentralRecord_length (p : ZipEntry × Nat) :
    (zipCentralRecord p).length = 46 + p.1.name.length := by
  simp [zipCentralRecord, writeLE16, writeLE32]
  omega

lemma zipEocd_length (c s o : Nat) : (zipEocd c s o).length = 22 := rfl

lemma crcStep_lt {c : Nat} (h : c < 4294967296) : crcStep c < 4294967296 := by
  unfold crcStep
  have h32 : (4294967296 : Nat) = 2 ^ 32 := by norm_num
  split
  · rw [h32]
    exact Nat.xor_lt_two_pow (by omega) (by norm_num)
  · omega

lemma crcTable_lt {i : Nat} (h : i < 4294967296) : crcTable i < 4294967296 := by
  have hrfl : crcTable i =
      crcStep (crcStep (crcStep (crcStep (crcStep (crcStep (crcStep (crcStep i))))))) := rfl
  rw [hrfl]
  exact crcStep_lt (crcStep_lt (crcStep_lt (crcStep_lt (crcStep_lt (crcStep_lt
    (crcStep_lt (crcStep_lt h)))))))

lemma crc32Fold_lt (data : Bytes) : crc32Fold data < 4294967296 := by
  unfold crc32Fold
  have h32 : (4294967296 : Nat) = 2 ^ 32 := by norm_num
  suffices hgen : ∀ (acc : Nat), acc < 4294967296 →
      data.foldl (fun crc ch => (crc >>> 8) ^^^ crcTable ((crc ^^^ ch) &&& 255)) acc
        < 4294967296 by
    exact hgen _ (by norm_num)
  induction data with
  | nil => exact fun acc h => h
  | cons b t ih =>
    intro acc hacc
    apply ih
    rw [h32]
    apply Nat.xor_lt_two_pow
    · rw [Nat.shiftRight_eq_div_pow]
      omega
    · rw [← h32]
      exact crcTable_lt (lt_of_le_of_lt Nat.and_le_right (by norm_num))

lemma crc32_lt (data : Bytes) : crc32 data < 4294967296 := by
  have h1 := crc32Fold_lt data
  have h32 : (4294967296 : Nat) = 2 ^ 32 := by norm_num
  unfold crc32
  rw [h32] at h1 ⊢
  exact Nat.xor_lt_two_pow h1 (by norm_num)

lemma parseLocal_ok {zip : Bytes} {off : Nat} {e : ZipEntry} {tail : Bytes}
    (hdrop : zip.drop off = zipLocalChunk e ++ tail)
    (hname : e.name.length < 65536) :
    parseLocalContent zip off e.content.length = some e.content := by
  unfold parseLocalContent
  rw [hdrop]
  simp only [zipLocalChunk, writeLE16, writeLE32, List.cons_append, List.nil_append,
    List.append_assoc]
  rw [un16 e.name.length, Nat.mod_eq_of_lt hname, zeroLE16, Nat.add_zero,
    List.drop_left, List.take_left]

lemma parseCentral_step (zip : Bytes) (k : Nat) (e : ZipEntry) (off : Nat)
    (restCd : Bytes) (hname : e.name.length < 65536) :
    parseCentralEntries zip (k + 1) (zipCentralRecord (e, off) ++ restCd) =
      match parseLocalContent zip (off % 4294967296) (e.uncompressedSize % 4294967296) with
      | none => none
      | some content =>
        match parseCentralEntries zip k restCd with
        | none => none
        | some es => some ({ crc := e.crc % 4294967296,
                             compressedSize := e.compressedSize % 4294967296,
                             uncompressedSize := e.uncompressedSize % 4294967296,
                             name := e.name, content := content } :: es) := by
  conv_lhs =>
    simp only [zipCentralRecord, writeLE16, writeLE32, List.cons_append, List.nil_append,
      List.append_assoc]
  rw [show parseCentralEntries zip (k + 1) = fun cd => parseCentralEntries zip (k + 1) cd
    from rfl]
  simp only [parseCentralEntries]
  rw [un16 e.name.length, Nat.mod_eq_of_lt hname, un32 e.crc, un32 e.compressedSize,
    un32 e.uncompressedSize, un32 off, zeroLE16, Nat.add_zero,
    List.drop_left, List.take_left]

lemma zipLocalSection_fst (entries : List ZipEntry) :
    ∀ pos : Nat, (zipLocalSection entries pos).1 = (entries.map zipLocalChunk).flatten := by
  induction entries with
  | nil => intro pos; simp [zipLocalSection]
  | cons e es ih => intro pos; simp [zipLocalSection, ih]

lemma zipLocalSection_snd_length (entries : List ZipEntry) :
    ∀ pos : Nat, (zipLocalSection entries pos).2.length = entries.length := by
  induction entries with
  | nil => intro pos; rfl
  | cons e es ih => intro pos; simp [zipLocalSection, ih]

lemma zipLocalSection_snd_fst (entries : List ZipEntry) :
    ∀ pos : Nat, (zipLocalSection entries pos).2.map Prod.fst = entries := by
  induction entries with
  | nil => intro pos; rfl
  | cons e es ih => intro pos; simp [zipLocalSection, ih]

lemma zipLocalSection_offsets :
    ∀ (entries : List ZipEntry) (pos : Nat) (pre post zip : Bytes),
      zip = pre ++ (entries.map zipLocalChunk).flatten ++ post →
      pre.length = pos →
      pos + ((entries.map zipLocalChunk).flatten).length ≤ 4294967296 →
      ∀ p ∈ (zipLocalSection entries pos).2,
        p.2 < 4294967296 ∧ ∃ tail, zip.drop p.2 = zipLocalChunk p.1 ++ tail := by
  intro entries
  induction entries with
  | nil =>
    intro pos pre post zip hzip hpre hbound p hp
    simp [zipLocalSection] at hp
  | cons e es ih =>
    intro pos pre post zip hzip hpre hbound p hp
    have hflat : ((e :: es).map zipLocalChunk).flatten =
        zipLocalChunk e ++ (es.map zipLocalChunk).flatten := by simp
    simp only [zipLocalSection] at hp
    rcases List.mem_cons.1 hp with hp | hp
    · subst hp
      have hposlt : pos < 4294967296 := by
        have hchunk : 30 ≤ (zipLocalChunk e).length := by
          rw [zipLocalChunk_length]; omega
        rw [hflat] at hbound
        simp [List.length_append] at hbound
        omega
    -- the recorded offset is the 32-bit-truncated position, which here is exact
      refine ⟨Nat.mod_lt _ (by norm_num), (es.map zipLocalChunk).flatten ++ post, ?_⟩
      rw [hzip, hflat, Nat.mod_eq_of_lt hposlt, ← hpre]
      rw [List.append_assoc, List.append_assoc, List.drop_left]
    · exact ih (pos + (zipLocalChunk e).length) (pre ++ zipLocalChunk e) post zip
        (by rw [hzip, hflat]; simp)
        (by simp [hpre])
        (by rw [hflat] at hbound; simp [List.length_append] at hbound ⊢; omega)
        p hp

lemma parseCentral_all (zip : Bytes) :
    ∀ tagged : List (ZipEntry × Nat),
      (∀ p ∈ tagged,
        p.1.name.length < 65536 ∧ p.1.crc < 4294967296 ∧
        p.1.compressedSize < 4294967296 ∧
        p.1.uncompressedSize = p.1.content.length ∧
        p.1.uncompressedSize < 4294967296 ∧
        p.2 < 4294967296 ∧
        ∃ tail, zip.drop p.2 = zipLocalChunk p.1 ++ tail) →
      parseCentralEntries zip tagged.length ((tagged.map zipCentralRecord).flatten) =
        some (tagged.map (fun p => ({ crc := p.1.crc,
                                      compressedSize := p.1.compressedSize,
                                      uncompressedSize := p.1.uncompressedSize,
                                      name := p.1.name,
                                      content := p.1.content } : ZipParsedEntry))) := by
  intro tagged
  induction tagged with
  | nil => intro _; rfl
  | cons p t ih =>
    rcases p with ⟨e, off⟩
    intro hall
    obtain ⟨hname, hcrc, hcs, husEq, husLt, hoff, tail, hdrop⟩ :=
      hall (e, off) (List.mem_cons_self _ _)
    simp only [] at hname hcrc hcs husEq husLt hoff hdrop
    simp only [List.map_cons, List.flatten_cons, List.length_cons]
    rw [parseCentral_step zip t.length e off _ hname]
    rw [ih (fun q hq => hall q (List.mem_cons_of_mem _ hq))]
    simp only [List.map_cons]
    rw [Nat.mod_eq_of_lt hoff, Nat.mod_eq_of_lt hcrc, Nat.mod_eq_of_lt hcs,
      Nat.mod_eq_of_lt husLt, husEq, parseLocal_ok hdrop hname]

lemma zipFinalize_roundtrip (entries : List ZipEntry)
    (hents : ∀ e ∈ entries, e.name.length < 65536 ∧ e.crc < 4294967296 ∧
      e.compressedSize < 4294967296 ∧ e.uncompressedSize = e.content.length ∧
      e.uncompressedSize < 4294967296)
    (hcount : entries.length < 65536)
    (hsize : (zipFinalize entries).length ≤ 4294967296) :
    parseZip (zipFinalize entries) =
      some (entries.map (fun e => ({ crc := e.crc,
                                     compressedSize := e.compressedSize,
                                     uncompressedSize := e.uncompressedSize,
                                     name := e.name,
                                     content := e.content } : ZipParsedEntry))) := by
  have hfin : zipFinalize entries =
      (zipLocalSection entries 0).1 ++
      (((zipLocalSection entries 0).2.map zipCentralRecord).flatten) ++
      zipEocd entries.length
        (((zipLocalSection entries 0).2.map zipCentralRecord).flatten).length
        (zipLocalSection entries 0).1.length := rfl
  set body := (zipLocalSection entries 0).1 with hbodydef
  set tagged := (zipLocalSection entries 0).2 with htaggeddef
  set cd := (tagged.map zipCentralRecord).flatten with hcddef
  have hlen : (zipFinalize entries).length = body.length + cd.length + 22 := by
    rw [hfin]
    simp [zipEocd_length]
    omega
  have hBlt : body.length < 4294967296 := by omega
  have hClt : cd.length < 4294967296 := by omega
  unfold parseZip
  have hdrop22 : (zipFinalize entries).drop ((zipFinalize entries).length - 22) =
      zipEocd entries.length cd.length body.length := by
    rw [hlen, hfin]
    have hsub : body.length + cd.length + 22 - 22 = (body ++ cd).length := by
      simp
    rw [hsub, List.drop_left]
  rw [hdrop22]
  simp only [zipEocd, writeLE16, writeLE32, List.cons_append, List.nil_append]
  have hN : (entries.length % 65536) % 256 +
      256 * ((entries.length % 65536) / 256 % 256) = entries.length := by omega
  have hC : (cd.length % 4294967296) % 256 +
      256 * ((cd.length % 4294967296) / 256 % 256) +
      65536 * ((cd.length % 4294967296) / 65536 % 256) +
      16777216 * ((cd.length % 4294967296) / 16777216 % 256) = cd.length := by omega
  have hB : (body.length % 4294967296) % 256 +
      256 * ((body.length % 4294967296) / 256 % 256) +
      65536 * ((body.length % 4294967296) / 65536 % 256) +
      16777216 * ((body.length % 4294967296) / 16777216 % 256) = body.length := by omega
  rw [hN, hC, hB]
  have hdropB : (zipFinalize entries).drop body.length =
      cd ++ zipEocd entries.length cd.length body.length := by
    rw [hfin, List.append_assoc, List.drop_left]
  rw [hdropB, List.take_left]
  have hlen2 : entries.length = tagged.length := (zipLocalSection_snd_length entries 0).symm
  rw [hlen2]
  have hbodyflat : body = (entries.map zipLocalChunk).flatten := zipLocalSection_fst entries 0
  have hoffsets := zipLocalSection_offsets entries 0 []
    (cd ++ zipEocd entries.length cd.length body.length) (zipFinalize entries)
    (by rw [hfin, ← hbodyflat]; simp)
    rfl
    (by rw [← hbodyflat]; omega)
  rw [parseCentral_all (zipFinalize entries) tagged ?hall]
  case hall =>
    intro p hp
    have hmem : p.1 ∈ entries := by
      rw [← zipLocalSection_snd_fst entries 0]
      exact List.mem_map.2 ⟨p, hp, rfl⟩
    obtain ⟨h1, h2, h3, h4, h5⟩ := hents p.1 hmem
    obtain ⟨h6, h7⟩ := hoffsets p hp
    exact ⟨h1, h2, h3, h4, h5, h6, h7⟩
  have hfuncomp : (fun p : ZipEntry × Nat => ({ crc := p.1.crc,
                                                compressedSize := p.1.compressedSize,
                                                uncompressedSize := p.1.uncompressedSize,
                                                name := p.1.name,
                                                content := p.1.content } : ZipParsedEntry)) =
    (fun e : ZipEntry => ({ crc := e.crc,
                            compressedSize := e.compressedSize,
                            uncompressedSize := e.uncompressedSize,
                            name := e.name,
                            content := e.content } : ZipParsedEntry)) ∘ Prod.fst := rfl
  rw [hfuncomp, ← List.map_map, zipLocalSection_snd_fst entries 0]

lemma zipBody_length (entries : List ZipEntry) :
    ∀ pos : Nat, ((zipLocalSection entries pos).1).length =
      (entries.map (fun e => 30 + e.name.length + e.content.length)).sum := by
  induction entries with
  | nil => intro pos; rfl
  | cons e es ih =>
    intro pos
    simp [zipLocalSection, zipLocalChunk_length, ih]

lemma zipCdSection_length (entries : List ZipEntry) :
    ∀ pos : Nat, (((zipLocalSection entries pos).2.map zipCentralRecord).flatten).length =
      (entries.map (fun e => 46 + e.name.length)).sum := by
  induction entries with
  | nil => intro pos; rfl
  | cons e es ih =>
    intro pos
    simp [zipLocalSection, zipCentralRecord_length, ih]

lemma zipFinalize_length (entries : List ZipEntry) :
    (zipFinalize entries).length =
      (entries.map (fun e => 30 + e.name.length + e.content.length)).sum +
      (entries.map (fun e => 46 + e.name.length)).sum + 22 := by
  have hfin : zipFinalize entries =
      (zipLocalSection entries 0).1 ++
      (((zipLocalSection entries 0).2.map zipCentralRecord).flatten) ++
      zipEocd entries.length
        (((zipLocalSection entries 0).2.map zipCentralRecord).flatten).length
        (zipLocalSection entries 0).1.length := rfl
  rw [hfin]
  rw [List.length_append, List.length_append, zipEocd_length, zipBody_length,
    zipCdSection_length]

lemma zipAddFile_name (n c : Bytes) : (zipAddFile n c).name = n := rfl

lemma zipAddFile_content (n c : Bytes) : (zipAddFile n c).content = c := rfl

lemma zipAddFile_crc (n c : Bytes) : (zipAddFile n c).crc = crc32 c := rfl

lemma zipAddFile_comp (n c : Bytes) :
    (zipAddFile n c).compressedSize = c.length % 4294967296 := rfl

lemma zipAddFile_uncomp (n c : Bytes) :
    (zipAddFile n c).uncompressedSize = c.length % 4294967296 := rfl

lemma lenName1 : (bytesOfString ("[Content_Types].xml")).length = 19 := by decide

lemma lenName2 : (bytesOfString ("_rels/.rels")).length = 11 := by decide

lemma lenName3 : (bytesOfString ("xl/workbook.xml")).length = 15 := by decide

lemma lenName4 : (bytesOfString ("xl/_rels/workbook.xml.rels")).length = 26 := by decide

lemma lenName5 : (bytesOfString ("xl/worksheets/sheet1.xml")).length = 24 := by decide

lemma lenContent1 : (bytesOfString contentTypesXml).length = 540 := by decide

lemma lenContent2 : (bytesOfString relsXml).length = 278 := by decide

lemma lenContent3 : (bytesOfString workbookXml).length = 269 := by decide

lemma lenContent4 : (bytesOfString workbookRelsXml).length = 279 := by decide

lemma xlsxEntries_sound (sheet : Bytes) (hsheetlt : sheet.length < 4294967296) :
    ∀ e ∈ (xlsxParts sheet).map (fun p => zipAddFile p.1 p.2),
      e.name.length < 65536 ∧ e.crc < 4294967296 ∧
      e.compressedSize < 4294967296 ∧ e.uncompressedSize = e.content.length ∧
      e.uncompressedSize < 4294967296 := by
  intro e he
  simp only [xlsxParts, List.map_cons, List.map_nil, List.mem_cons,
    List.not_mem_nil, or_false] at he
  rcases he with rfl | rfl | rfl | rfl | rfl
  · refine ⟨?_, ?_, ?_, ?_, ?_⟩
    · rw [zipAddFile_name, lenName1]; norm_num
    · rw [zipAddFile_crc]; exact crc32_lt _
    · rw [zipAddFile_comp]; exact Nat.mod_lt _ (by norm_num)
    · rw [zipAddFile_uncomp, zipAddFile_content, lenContent1]
    · rw [zipAddFile_uncomp]; exact Nat.mod_lt _ (by norm_num)
  · refine ⟨?_, ?_, ?_, ?_, ?_⟩
    · rw [zipAddFile_name, lenName2]; norm_num
    · rw [zipAddFile_crc]; exact crc32_lt _
    · rw [zipAddFile_comp]; exact Nat.mod_lt _ (by norm_num)
    · rw [zipAddFile_uncomp, zipAddFile_content, lenContent2]
    · rw [zipAddFile_uncomp]; exact Nat.mod_lt _ (by norm_num)
  · refine ⟨?_, ?_, ?_, ?_, ?_⟩
    · rw [zipAddFile_name, lenName3]; norm_num
    · rw [zipAddFile_crc]; exact crc32_lt _
    · rw [zipAddFile_comp]; exact Nat.mod_lt _ (by norm_num)
    · rw [zipAddFile_uncomp, zipAddFile_content, lenContent3]
    · rw [zipAddFile_uncomp]; exact Nat.mod_lt _ (by norm_num)
  · refine ⟨?_, ?_, ?_, ?_, ?_⟩
    · rw [zipAddFile_name, lenName4]; norm_num
    · rw [zipAddFile_crc]; exact crc32_lt _
    · rw [zipAddFile_comp]; exact Nat.mod_lt _ (by norm_num)
    · rw [zipAddFile_uncomp, zipAddFile_content, lenContent4]
    · rw [zipAddFile_uncomp]; exact Nat.mod_lt _ (by norm_num)
  · refine ⟨?_, ?_, ?_, ?_, ?_⟩
    · rw [zipAddFile_name, lenName5]; norm_num
    · rw [zipAddFile_crc]; exact crc32_lt _
    · rw [zipAddFile_comp]; exact Nat.mod_lt _ (by norm_num)
    · rw [zipAddFile_uncomp, zipAddFile_content]; exact Nat.mod_eq_of_lt hsheetlt
    · rw [zipAddFile_uncomp]; exact Nat.mod_lt _ (by norm_num)

lemma xlsxEntries_count (sheet : Bytes) :
    ((xlsxParts sheet).map (fun p => zipAddFile p.1 p.2)).length < 65536 := by
  simp [xlsxParts]

lemma xlsxEntries_size (sheet : Bytes) (hsheet : sheet.length ≤ 2147483648) :
    (zipFinalize ((xlsxParts sheet).map (fun p => zipAddFile p.1 p.2))).length
      ≤ 4294967296 := by
  rw [zipFinalize_length]
  simp only [xlsxParts, List.map_cons, List.map_nil, List.sum_cons, List.sum_nil,
    zipAddFile_name, zipAddFile_content]
  rw [lenName1, lenName2, lenName3, lenName4, lenName5,
    lenContent1, lenContent2, lenContent3, lenContent4]
  omega

lemma xlsxEntries_parsed_length (sheet : Bytes) :
    (((xlsxParts sheet).map (fun p => zipAddFile p.1 p.2)).map
      (fun e => ({ crc := e.crc, compressedSize := e.compressedSize,
                   uncompressedSize := e.uncompressedSize, name := e.name,
                   content := e.content } : ZipParsedEntry))).length = 5 := by
  simp [xlsxParts]

lemma xlsxEntries_parsed_props (sheet : Bytes) :
    ∀ q ∈ ((xlsxParts sheet).map (fun p => zipAddFile p.1 p.2)).map
      (fun e => ({ crc := e.crc, compressedSize := e.compressedSize,
                   uncompressedSize := e.uncompressedSize, name := e.name,
                   content := e.content } : ZipParsedEntry)),
      q.crc = crc32 q.content ∧ q.compressedSize = q.uncompressedSize := by
  intro q hq
  simp only [xlsxParts, List.map_cons, List.map_nil, List.mem_cons,
    List.not_mem_nil, or_false] at hq
  rcases hq with rfl | rfl | rfl | rfl | rfl <;>
    exact ⟨by rw [zipAddFile_crc, zipAddFile_content], by rw [zipAddFile_comp, zipAddFile_uncomp]⟩

/-- C3: for every worksheet byte string of reasonable size (the ZIP32
format caps the container at `2^32` bytes), parsing the produced XLSX byte
stream back through its central directory reports exactly five entries —
one per part written — and for each entry the stored CRC-32 matches a
fresh CRC-32 of the extracted content bytes, with `compressedSize` equal
to `uncompressedSize`. -/
theorem c3_xlsx_zip_roundtrip (sheet : Bytes) (hsheet : sheet.length ≤ 2147483648) :
    ∃ parsed, parseZip (buildXlsxReportBytes sheet) = some parsed ∧
      parsed.length = 5 ∧
      ∀ q ∈ parsed, q.crc = crc32 q.content ∧ q.compressedSize = q.uncompressedSize := by
  have h1 := xlsxEntries_sound sheet (by omega)
  have h2 := xlsxEntries_count sheet
  have h3 := xlsxEntries_size sheet hsheet
  have h4 := zipFinalize_roundtrip _ h1 h2 h3
  exact ⟨_, h4, xlsxEntries_parsed_length sheet, xlsxEntries_parsed_props sheet⟩

set_option maxHeartbeats 1000000 in
/-- C3 (witness): the round-trip property at a concrete small worksheet. -/
theorem c3_xlsx_zip_roundtrip_witness :
    demoSheet.length ≤ 2147483648 ∧
    (∃ parsed, parseZip (buildXlsxReportBytes demoSheet) = some parsed ∧
      parsed.length = 5 ∧
      ∀ q ∈ parsed, q.crc = crc32 q.content ∧ q.compressedSize = q.uncompressedSize) :=
  ⟨by decide, c3_xlsx_zip_roundtrip demoSheet (by decide)⟩

/-! ### Report readers: correctness over the rendered CSV and JSON payloads -/

lemma takeWhile_app (p : Char → Bool) (xs ys : List Char)
    (hx : ∀ a ∈ xs, p a = true) (hy : ∀ c, ys.head? = some c → p c = false) :
    (xs ++ ys).takeWhile p = xs := by
  induction xs with
  | nil =>
    cases ys with
    | nil => rfl
    | cons c t =>
      have hc := hy c rfl
      simp [List.takeWhile_cons, hc]
  | cons a t ih =>
    have ha := hx a (List.mem_cons_self a t)
    rw [List.cons_append, List.takeWhile_cons, if_pos ha,
      ih (fun b hb => hx b (List.mem_cons_of_mem a hb))]

lemma dropWhile_skip (p : Char → Bool) (xs ys : List Char)
    (hx : ∀ a ∈ xs, p a = true) :
    (xs ++ ys).dropWhile p = ys.dropWhile p := by
  induction xs with
  | nil => rfl
  | cons a t ih =>
    have ha := hx a (List.mem_cons_self a t)
    rw [List.cons_append, List.dropWhile_cons, if_pos ha,
      ih (fun b hb => hx b (List.mem_cons_of_mem a hb))]

lemma dropWhile_cons_pos (p : Char → Bool) (a : Char) (l : List Char) (h : p a = true) :
    (a :: l).dropWhile p = l.dropWhile p := by
  rw [List.dropWhile_cons, if_pos h]

lemma dropWhile_cons_neg (p : Char → Bool) (a : Char) (l : List Char) (h : p a = false) :
    (a :: l).dropWhile p = a :: l := by
  rw [List.dropWhile_cons, if_neg]
  simp [h]

lemma dropWhile_app (p : Char → Bool) (xs ys : List Char)
    (hx : ∀ a ∈ xs, p a = true) (hy : ∀ c, ys.head? = some c → p c = false) :
    (xs ++ ys).dropWhile p = ys := by
  rw [dropWhile_skip p xs ys hx]
  cases ys with
  | nil => rfl
  | cons c t => exact dropWhile_cons_neg p c t (hy c rfl)

lemma head_fail_of (p : Char → Bool) (ys : List Char) (d : Char)
    (hd : ys.head? = some d) (hpd : p d = false) :
    ∀ c, ys.head? = some c → p c = false := by
  intro c h
  rw [hd] at h
  injection h with h2
  rwa [← h2]

lemma drop_app_cons (xs : List Char) (c : Char) (ys : List Char) :
    (xs ++ c :: ys).drop (xs.length + 1) = ys := by
  induction xs with
  | nil => rfl
  | cons a t ih => simpa using ih

lemma natChars_ne_nil (n : Nat) : natChars n ≠ [] := by
  unfold natChars
  split
  · simp
  · simp

lemma natChars_range (n : Nat) : ∀ c ∈ natChars n, 48 ≤ c.toNat ∧ c.toNat ≤ 57 := by
  induction n using Nat.strong_induction_on with
  | _ n ih =>
    unfold natChars
    split
    next h =>
      intro c hc
      simp only [List.mem_singleton] at hc
      subst hc
      interval_cases n <;> exact ⟨by decide, by decide⟩
    next h =>
      intro c hc
      rw [List.mem_append] at hc
      rcases hc with hc | hc
      · exact ih (n / 10) (Nat.div_lt_self (by omega) (by omega)) c hc
      · simp only [List.mem_singleton] at hc
        subst hc
        have h10 : n % 10 < 10 := Nat.mod_lt _ (by omega)
        set m := n % 10 with hm
        interval_cases m <;> exact ⟨by decide, by decide⟩

lemma parseNat_go (n : Nat) : ∀ a : Nat,
    (natChars n).foldl (fun acc c => acc * 10 + (c.toNat - 48)) a =
      a * 10 ^ (natChars n).length + n := by
  induction n using Nat.strong_induction_on with
  | _ n ih =>
    intro a
    unfold natChars
    split
    next h =>
      have hv : (Char.ofNat (48 + n)).toNat = 48 + n := by interval_cases n <;> decide
      simp only [List.foldl_cons, List.foldl_nil, List.length_singleton, pow_one, hv]
      omega
    next h =>
      rw [List.foldl_append, ih (n / 10) (Nat.div_lt_self (by omega) (by omega)) a]
      have h10 : n % 10 < 10 := Nat.mod_lt _ (by omega)
      have hv : (Char.ofNat (48 + n % 10)).toNat = 48 + n % 10 := by
        set m := n % 10 with hm
        interval_cases m <;> decide
      simp only [List.foldl_cons, List.foldl_nil, List.length_append, List.length_singleton, hv]
      have hsplit : (a * 10 ^ (natChars (n / 10)).length + n / 10) * 10 + (48 + n % 10 - 48) =
          a * (10 ^ (natChars (n / 10)).length * 10) + (n / 10 * 10 + (48 + n % 10 - 48)) := by
        ring
      rw [hsplit, pow_succ]
      omega

lemma parseNat_natChars (n : Nat) : parseNatChars (natChars n) = n := by
  unfold parseNatChars
  rw [parseNat_go n 0]
  simp

lemma digitChar_digit (m : Nat) (h : m < 10) : isDigitChar (Char.ofNat (48 + m)) = true := by
  interval_cases m <;> decide

lemma natChars_digit (n : Nat) : ∀ c ∈ natChars n, isDigitChar c = true := by
  intro c hc
  obtain ⟨h1, h2⟩ := natChars_range n c hc
  simp [isDigitChar, h1, h2]

lemma isDigit_num {c : Char} (h : isDigitChar c = true) : numberChar c = true := by
  simp [numberChar, h]

lemma natChars_num (n : Nat) : ∀ c ∈ natChars n, numberChar c = true :=
  fun c hc => isDigit_num (natChars_digit n c hc)

lemma intChars_num (i : Int) : ∀ c ∈ intChars i, numberChar c = true := by
  intro c hc
  unfold intChars at hc
  split at hc
  · rcases List.mem_cons.mp hc with rfl | hc
    · decide
    · exact natChars_num _ c hc
  · exact natChars_num _ c hc

lemma twoDigitChars_num (n : Nat) : ∀ c ∈ twoDigitChars n, numberChar c = true := by
  intro c hc
  simp only [twoDigitChars, List.mem_cons, List.not_mem_nil, or_false] at hc
  rcases hc with rfl | rfl
  · exact isDigit_num (digitChar_digit _ (Nat.mod_lt _ (by omega)))
  · exact isDigit_num (digitChar_digit _ (Nat.mod_lt _ (by omega)))

lemma hundredthsChars_num (n : Nat) : ∀ c ∈ hundredthsChars n, numberChar c = true := by
  intro c hc
  simp only [hundredthsChars, List.mem_append, List.mem_cons] at hc
  rcases hc with hc | rfl | hc
  · exact natChars_num _ c hc
  · decide
  · exact twoDigitChars_num _ c hc

lemma fixed2Chars_num (q : ℚ) : ∀ c ∈ fixed2Chars q, numberChar c = true := by
  intro c hc
  unfold fixed2Chars at hc
  simp only [] at hc
  split at hc
  · rcases List.mem_cons.mp hc with rfl | hc
    · decide
    · exact hundredthsChars_num _ c hc
  · exact hundredthsChars_num _ c hc

lemma stripTail_subset (s : List Char) : ∀ c ∈ stripTail s, c ∈ s := by
  intro c hc
  simp only [stripTail] at hc
  rw [List.mem_reverse] at hc
  have hr : c ∈ s.reverse.dropWhile (fun c => c = '0') := by
    split at hc
    · exact List.mem_of_mem_drop hc
    · exact hc
  have hs : c ∈ s.reverse := (List.dropWhile_sublist _).subset hr
  exact List.mem_reverse.mp hs

lemma padLeft_mem (d : Nat) (s : List Char) : ∀ c ∈ padLeft d s, c = '0' ∨ c ∈ s := by
  intro c hc
  unfold padLeft at hc
  rw [List.mem_append] at hc
  rcases hc with hc | hc
  · exact Or.inl (List.eq_of_mem_replicate hc)
  · exact Or.inr hc

lemma expChars_num (e : Int) : ∀ c ∈ expChars e, numberChar c = true := by
  intro c hc
  unfold expChars at hc
  rcases List.mem_cons.mp hc with rfl | hc
  · split
    · decide
    · decide
  · split at hc
    · rcases List.mem_cons.mp hc with rfl | hc
      · decide
      · exact natChars_num _ c hc
    · exact natChars_num _ c hc

lemma fixedGChars_num (a b d : Nat) :
    ∀ c ∈ stripTail (natChars a ++ '.' :: padLeft d (natChars b)), numberChar c = true := by
  intro c hc
  have hin := stripTail_subset _ c hc
  rw [List.mem_append] at hin
  rcases hin with hin | hin
  · exact natChars_num _ c hin
  · rcases List.mem_cons.mp hin with rfl | hin
    · decide
    · rcases padLeft_mem _ _ c hin with rfl | hin
      · decide
      · exact natChars_num _ c hin

lemma doubleChars_num (q : ℚ) : ∀ c ∈ doubleChars q, numberChar c = true := by
  intro c hc
  unfold doubleChars at hc
  split at hc
  · simp only [List.mem_singleton] at hc
    subst hc
    decide
  · simp only [] at hc
    split at hc
    · split at hc
      · rw [List.mem_append] at hc
        rcases hc with hc | hc
        · simp only [List.mem_singleton] at hc
          subst hc
          decide
        · rw [List.mem_append] at hc
          rcases hc with hc | hc
          · exact fixedGChars_num _ _ _ c hc
          · rcases List.mem_cons.mp hc with rfl | hc
            · decide
            · exact expChars_num _ c hc
      · rw [List.mem_append] at hc
        rcases hc with hc | hc
        · simp only [List.mem_singleton] at hc
          subst hc
          decide
        · exact fixedGChars_num _ _ _ c hc
    · split at hc
      · rw [List.mem_append] at hc
        rcases hc with hc | hc
        · simp at hc
        · rw [List.mem_append] at hc
          rcases hc with hc | hc
          · exact fixedGChars_num _ _ _ c hc
          · rcases List.mem_cons.mp hc with rfl | hc
            · decide
            · exact expChars_num _ c hc
      · rw [List.mem_append] at hc
        rcases hc with hc | hc
        · simp at hc
        · exact fixedGChars_num _ _ _ c hc

lemma num_ne_nl {c : Char} (h : numberChar c = true) :
    (fun c : Char => decide (c ≠ '\n')) c = true := by
  have hne : c ≠ '\n' := by
    intro he
    rw [he] at h
    exact absurd h (by decide)
  simpa using hne

lemma natChars_nl (n : Nat) :
    ∀ a ∈ natChars n, (fun c : Char => decide (c ≠ '\n')) a = true :=
  fun a ha => num_ne_nl (natChars_num n a ha)

lemma intChars_nl (i : Int) :
    ∀ a ∈ intChars i, (fun c : Char => decide (c ≠ '\n')) a = true :=
  fun a ha => num_ne_nl (intChars_num i a ha)

lemma fixed2Chars_nl (q : ℚ) :
    ∀ a ∈ fixed2Chars q, (fun c : Char => decide (c ≠ '\n')) a = true :=
  fun a ha => num_ne_nl (fixed2Chars_num q a ha)

lemma jsonEscapeChar_plain {c : Char} (h32 : 32 ≤ c.toNat) (hq : c ≠ '"') (hb : c ≠ '\\') :
    jsonEscapeChar c = [c] := by
  have h8 : c ≠ Char.ofNat 8 := by
    intro he; rw [he] at h32; exact absurd h32 (by decide)
  have h12 : c ≠ Char.ofNat 12 := by
    intro he; rw [he] at h32; exact absurd h32 (by decide)
  have hn : c ≠ '\n' := by
    intro he; rw [he] at h32; exact absurd h32 (by decide)
  have hr : c ≠ '\r' := by
    intro he; rw [he] at h32; exact absurd h32 (by decide)
  have ht : c ≠ '\t' := by
    intro he; rw [he] at h32; exact absurd h32 (by decide)
  have hlt : ¬ (c.toNat < 32) := by omega
  simp [jsonEscapeChar, hb, hq, h8, h12, hn, hr, ht, hlt]

lemma jsonEscape_plain (s : List Char) (h : plainName s) : jsonEscape s = s := by
  induction s with
  | nil => rfl
  | cons a t ih =>
    obtain ⟨h32, hq, hb⟩ := h a (List.mem_cons_self a t)
    have ht : jsonEscape t = t := ih (fun c hc => h c (List.mem_cons_of_mem a hc))
    show jsonEscapeChar a ++ (t.map jsonEscapeChar).flatten = a :: t
    rw [jsonEscapeChar_plain h32 hq hb]
    exact congrArg (List.cons a) ht

lemma isPrefixOf_self_app (pat rest : List Char) : pat.isPrefixOf (pat ++ rest) = true := by
  induction pat with
  | nil => simp [List.isPrefixOf]
  | cons a t ih => simp [List.isPrefixOf, ih]

lemma expectTxt_app (pat rest : List Char) : expectTxt pat (pat ++ rest) = some rest := by
  unfold expectTxt
  rw [if_pos, List.drop_left]
  exact (by simpa using isPrefixOf_self_app pat rest)

lemma isPrefixOf_app_of_le (pat t X : List Char) (h : pat.length ≤ t.length) :
    pat.isPrefixOf (t ++ X) = pat.isPrefixOf t := by
  induction pat generalizing t with
  | nil => simp [List.isPrefixOf]
  | cons a as ih =>
    cases t with
    | nil => simp at h
    | cons b bs =>
      simp only [List.cons_append, List.isPrefixOf, List.append_eq]
      rw [ih bs (by simpa using h)]

lemma expectTxt_stop (pat t X : List Char) (hlen : pat.length ≤ t.length)
    (hno : pat.isPrefixOf t = false) : expectTxt pat (t ++ X) = none := by
  have hfalse : pat.isPrefixOf (t ++ X) = false := by
    rw [isPrefixOf_app_of_le pat t X hlen, hno]
  simp [expectTxt, hfalse]

lemma takeWhile_app_cons (p : Char → Bool) (xs : List Char) (d : Char) (zs : List Char)
    (hx : ∀ a ∈ xs, p a = true) (hd : p d = false) : (xs ++ d :: zs).takeWhile p = xs :=
  takeWhile_app p xs (d :: zs) hx (head_fail_of p (d :: zs) d rfl hd)

lemma dropWhile_app_keep (p : Char → Bool) (t : List Char) (d : Char) (X : List Char)
    (ht : t.head? = some d) (hd : p d = false) : (t ++ X).dropWhile p = t ++ X := by
  cases t with
  | nil => simp at ht
  | cons a s =>
    rw [List.head?_cons] at ht
    injection ht with h2
    rw [List.cons_append]
    refine dropWhile_cons_neg p a _ ?_
    rw [h2]
    exact hd

lemma csvRowsFrom_step (ib ic : Bool) (fuel : Nat) (row : LanguageRow)
    (hplain : plainName row.name) (tail : List Char) :
    csvRowsFrom (fuel + 1) (csvRowText ib ic row ++ tail) =
      match csvRowsFrom fuel tail with
      | none => none
      | some rs => some ((row.name, row.files, row.lines) :: rs) := by
  have hqx : ∀ a ∈ row.name, (fun c : Char => decide (c ≠ '"')) a = true := by
    intro a ha
    simpa using (hplain a ha).2.1
  conv_lhs => simp only [csvRowText, List.cons_append, List.nil_append, List.append_assoc]
  simp only [csvRowsFrom]
  rw [if_pos trivial]
  rw [takeWhile_app_cons (fun c : Char => decide (c ≠ '"')) row.name '"' _ hqx (by decide)]
  rw [drop_app_cons]
  simp only []
  rw [if_pos trivial]
  rw [takeWhile_app_cons isDigitChar (natChars row.files) ',' _ (natChars_digit row.files)
    (by decide)]
  rw [if_neg (natChars_ne_nil row.files)]
  rw [List.drop_left]
  simp only []
  rw [if_pos trivial]
  cases ib <;> cases ic
  case false.false =>
    rw [if_neg (show ¬(false = true) by decide), if_neg (show ¬(false = true) by decide)]
    simp only [List.nil_append, List.cons_append, List.append_assoc]
    rw [takeWhile_app_cons isDigitChar (natChars row.lines) ',' _ (natChars_digit row.lines)
      (by decide)]
    rw [if_neg (natChars_ne_nil row.lines)]
    rw [List.drop_left]
    rw [dropWhile_cons_pos (fun c : Char => decide (c ≠ '\n')) ',' _ (by decide),
      dropWhile_skip (fun c : Char => decide (c ≠ '\n')) (natChars row.functionCount) _
        (natChars_nl row.functionCount),
      dropWhile_cons_pos (fun c : Char => decide (c ≠ '\n')) ',' _ (by decide),
      dropWhile_skip (fun c : Char => decide (c ≠ '\n')) (intChars row.minFunctionLength) _
        (intChars_nl row.minFunctionLength),
      dropWhile_cons_pos (fun c : Char => decide (c ≠ '\n')) ',' _ (by decide),
      dropWhile_skip (fun c : Char => decide (c ≠ '\n')) (intChars row.maxFunctionLength) _
        (intChars_nl row.maxFunctionLength),
      dropWhile_cons_pos (fun c : Char => decide (c ≠ '\n')) ',' _ (by decide),
      dropWhile_skip (fun c : Char => decide (c ≠ '\n')) (fixed2Chars row.averageFunctionLength) _
        (fixed2Chars_nl row.averageFunctionLength),
      dropWhile_cons_pos (fun c : Char => decide (c ≠ '\n')) ',' _ (by decide),
      dropWhile_skip (fun c : Char => decide (c ≠ '\n')) (fixed2Chars row.medianFunctionLength) _
        (fixed2Chars_nl row.medianFunctionLength),
      dropWhile_cons_neg (fun c : Char => decide (c ≠ '\n')) '\n' _ (by decide)]
    simp only [List.drop_succ_cons, List.drop_zero]
    rw [parseNat_natChars row.files, parseNat_natChars row.lines]
  case false.true =>
    rw [if_neg (show ¬(false = true) by decide), if_pos (show true = true from rfl)]
    simp only [List.nil_append, List.cons_append, List.append_assoc]
    rw [takeWhile_app_cons isDigitChar (natChars row.lines) ',' _ (natChars_digit row.lines)
      (by decide)]
    rw [if_neg (natChars_ne_nil row.lines)]
    rw [List.drop_left]
    rw [dropWhile_cons_pos (fun c : Char => decide (c ≠ '\n')) ',' _ (by decide),
      dropWhile_skip (fun c : Char => decide (c ≠ '\n')) (natChars row.commentLines) _
        (natChars_nl row.commentLines),
      dropWhile_cons_pos (fun c : Char => decide (c ≠ '\n')) ',' _ (by decide),
      dropWhile_skip (fun c : Char => decide (c ≠ '\n')) (natChars row.functionCount) _
        (natChars_nl row.functionCount),
      dropWhile_cons_pos (fun c : Char => decide (c ≠ '\n')) ',' _ (by decide),
      dropWhile_skip (fun c : Char => decide (c ≠ '\n')) (intChars row.minFunctionLength) _
        (intChars_nl row.minFunctionLength),
      dropWhile_cons_pos (fun c : Char => decide (c ≠ '\n')) ',' _ (by decide),
      dropWhile_skip (fun c : Char => decide (c ≠ '\n')) (intChars row.maxFunctionLength) _
        (intChars_nl row.maxFunctionLength),
      dropWhile_cons_pos (fun c : Char => decide (c ≠ '\n')) ',' _ (by decide),
      dropWhile_skip (fun c : Char => decide (c ≠ '\n')) (fixed2Chars row.averageFunctionLength) _
        (fixed2Chars_nl row.averageFunctionLength),
      dropWhile_cons_pos (fun c : Char => decide (c ≠ '\n')) ',' _ (by decide),
      dropWhile_skip (fun c : Char => decide (c ≠ '\n')) (fixed2Chars row.medianFunctionLength) _
        (fixed2Chars_nl row.medianFunctionLength),
      dropWhile_cons_neg (fun c : Char => decide (c ≠ '\n')) '\n' _ (by decide)]
    simp only [List.drop_succ_cons, List.drop_zero]
    rw [parseNat_natChars row.files, parseNat_natChars row.lines]
  case true.false =>
    rw [if_pos (show true = true from rfl), if_neg (show ¬(false = true) by decide)]
    simp only [List.nil_append, List.cons_append, List.append_assoc]
    rw [takeWhile_app_cons isDigitChar (natChars row.lines) ',' _ (natChars_digit row.lines)
      (by decide)]
    rw [if_neg (natChars_ne_nil row.lines)]
    rw [List.drop_left]
    rw [dropWhile_cons_pos (fun c : Char => decide (c ≠ '\n')) ',' _ (by decide),
      dropWhile_skip (fun c : Char => decide (c ≠ '\n')) (natChars row.blankLines) _
        (natChars_nl row.blankLines),
      dropWhile_cons_pos (fun c : Char => decide (c ≠ '\n')) ',' _ (by decide),
      dropWhile_skip (fun c : Char => decide (c ≠ '\n')) (natChars row.functionCount) _
        (natChars_nl row.functionCount),
      dropWhile_cons_pos (fun c : Char => decide (c ≠ '\n')) ',' _ (by decide),
      dropWhile_skip (fun c : Char => decide (c ≠ '\n')) (intChars row.minFunctionLength) _
        (intChars_nl row.minFunctionLength),
      dropWhile_cons_pos (fun c : Char => decide (c ≠ '\n')) ',' _ (by decide),
      dropWhile_skip (fun c : Char => decide (c ≠ '\n')) (intChars row.maxFunctionLength) _
        (intChars_nl row.maxFunctionLength),
      dropWhile_cons_pos (fun c : Char => decide (c ≠ '\n')) ',' _ (by decide),
      dropWhile_skip (fun c : Char => decide (c ≠ '\n')) (fixed2Chars row.averageFunctionLength) _
        (fixed2Chars_nl row.averageFunctionLength),
      dropWhile_cons_pos (fun c : Char => decide (c ≠ '\n')) ',' _ (by decide),
      dropWhile_skip (fun c : Char => decide (c ≠ '\n')) (fixed2Chars row.medianFunctionLength) _
        (fixed2Chars_nl row.medianFunctionLength),
      dropWhile_cons_neg (fun c : Char => decide (c ≠ '\n')) '\n' _ (by decide)]
    simp only [List.drop_succ_cons, List.drop_zero]
    rw [parseNat_natChars row.files, parseNat_natChars row.lines]
  case true.true =>
    rw [if_pos (show true = true from rfl), if_pos (show true = true from rfl)]
    simp only [List.nil_append, List.cons_append, List.append_assoc]
    rw [takeWhile_app_cons isDigitChar (natChars row.lines) ',' _ (natChars_digit row.lines)
      (by decide)]
    rw [if_neg (natChars_ne_nil row.lines)]
    rw [List.drop_left]
    rw [dropWhile_cons_pos (fun c : Char => decide (c ≠ '\n')) ',' _ (by decide),
      dropWhile_skip (fun c : Char => decide (c ≠ '\n')) (natChars row.blankLines) _
        (natChars_nl row.blankLines),
      dropWhile_cons_pos (fun c : Char => decide (c ≠ '\n')) ',' _ (by decide),
      dropWhile_skip (fun c : Char => decide (c ≠ '\n')) (natChars row.commentLines) _
        (natChars_nl row.commentLines),
      dropWhile_cons_pos (fun c : Char => decide (c ≠ '\n')) ',' _ (by decide),
      dropWhile_skip (fun c : Char => decide (c ≠ '\n')) (natChars row.functionCount) _
        (natChars_nl row.functionCount),
      dropWhile_cons_pos (fun c : Char => decide (c ≠ '\n')) ',' _ (by decide),
      dropWhile_skip (fun c : Char => decide (c ≠ '\n')) (intChars row.minFunctionLength) _
        (intChars_nl row.minFunctionLength),
      dropWhile_cons_pos (fun c : Char => decide (c ≠ '\n')) ',' _ (by decide),
      dropWhile_skip (fun c : Char => decide (c ≠ '\n')) (intChars row.maxFunctionLength) _
        (intChars_nl row.maxFunctionLength),
      dropWhile_cons_pos (fun c : Char => decide (c ≠ '\n')) ',' _ (by decide),
      dropWhile_skip (fun c : Char => decide (c ≠ '\n')) (fixed2Chars row.averageFunctionLength) _
        (fixed2Chars_nl row.averageFunctionLength),
      dropWhile_cons_pos (fun c : Char => decide (c ≠ '\n')) ',' _ (by decide),
      dropWhile_skip (fun c : Char => decide (c ≠ '\n')) (fixed2Chars row.medianFunctionLength) _
        (fixed2Chars_nl row.medianFunctionLength),
      dropWhile_cons_neg (fun c : Char => decide (c ≠ '\n')) '\n' _ (by decide)]
    simp only [List.drop_succ_cons, List.drop_zero]
    rw [parseNat_natChars row.files, parseNat_natChars row.lines]

lemma head_app_fail (p : Char → Bool) (t X : List Char) (d : Char)
    (ht : t.head? = some d) (hd : p d = false) :
    ∀ c, (t ++ X).head? = some c → p c = false := by
  cases t with
  | nil => simp at ht
  | cons a s =>
    rw [List.head?_cons] at ht
    injection ht with h2
    intro c hc
    rw [List.cons_append, List.head?_cons] at hc
    injection hc with h3
    rw [← h3, h2]
    exact hd

lemma takeWhile_app_head (p : Char → Bool) (xs t : List Char) (X : List Char) (d : Char)
    (hx : ∀ a ∈ xs, p a = true) (ht : t.head? = some d) (hd : p d = false) :
    (xs ++ (t ++ X)).takeWhile p = xs :=
  takeWhile_app p xs (t ++ X) hx (head_app_fail p t X d ht hd)

lemma jsonObjsFrom_step_false_false (fuel : Nat) (row : LanguageRow)
    (hplain : plainName row.name) (tail : List Char) :
    jsonObjsFrom (fuel + 1) (jsonObjText false false row ++ tail) =
      match tail with
      | [] => none
      | c :: more =>
        if c = ',' then
          match jsonObjsFrom fuel more with
          | none => none
          | some rs => some ((row.name, row.files, row.lines) :: rs)
        else if c = ']' then
          match more with
          | e :: [] =>
            if e = Char.ofNat 125 then some [(row.name, row.files, row.lines)] else none
          | _ => none
        else none := by
  have hqx : ∀ a ∈ row.name, (fun c : Char => decide (c ≠ '"')) a = true := by
    intro a ha
    simpa using (hplain a ha).2.1
  conv_lhs => simp only [jsonObjText, List.append_assoc]
  first
  | rw [if_neg (show ¬(false = true) by decide)]
  | skip
  first
  | rw [if_neg (show ¬(false = true) by decide)]
  | skip
  first
  | rw [List.nil_append, List.nil_append]
  | skip
  simp only [jsonObjsFrom]
  rw [jsonEscape_plain row.name hplain]
  rw [expectTxt_app ("\x7b\"language\":\"".data)]
  simp only []
  rw [takeWhile_app_head (fun c : Char => decide (c ≠ '"')) row.name ("\",\"files\":".data) _ '"'
    hqx rfl (by decide)]
  rw [List.drop_left]
  rw [expectTxt_app ("\",\"files\":".data)]
  simp only []
  rw [takeWhile_app_head isDigitChar (natChars row.files) (",\"lines\":".data) _ ','
    (natChars_digit row.files) rfl (by decide)]
  rw [if_neg (natChars_ne_nil row.files), List.drop_left]
  rw [expectTxt_app (",\"lines\":".data)]
  simp only []
  rw [takeWhile_app_head isDigitChar (natChars row.lines) (",\"functions\":\x7b\"count\":".data) _ ','
    (natChars_digit row.lines) rfl (by decide)]
  rw [if_neg (natChars_ne_nil row.lines), List.drop_left]
  rw [expectTxt_stop (",\"blankLines\":".data) (",\"functions\":\x7b\"count\":".data) _ (by decide) (by decide)]
  simp only []
  rw [expectTxt_stop (",\"commentLines\":".data) (",\"functions\":\x7b\"count\":".data) _ (by decide) (by decide)]
  simp only []
  rw [expectTxt_app (",\"functions\":\x7b\"count\":".data)]
  simp only []
  rw [dropWhile_skip isDigitChar (natChars row.functionCount) _ (natChars_digit row.functionCount)]
  rw [dropWhile_app_keep isDigitChar (",\"min\":".data) ',' _ rfl (by decide)]
  rw [expectTxt_app (",\"min\":".data)]
  simp only []
  rw [dropWhile_skip numberChar (intChars row.minFunctionLength) _
    (intChars_num row.minFunctionLength)]
  rw [dropWhile_app_keep numberChar (",\"max\":".data) ',' _ rfl (by decide)]
  rw [expectTxt_app (",\"max\":".data)]
  simp only []
  rw [dropWhile_skip numberChar (intChars row.maxFunctionLength) _
    (intChars_num row.maxFunctionLength)]
  rw [dropWhile_app_keep numberChar (",\"average\":".data) ',' _ rfl (by decide)]
  rw [expectTxt_app (",\"average\":".data)]
  simp only []
  rw [dropWhile_skip numberChar (doubleChars row.averageFunctionLength) _
    (doubleChars_num row.averageFunctionLength)]
  rw [dropWhile_app_keep numberChar (",\"median\":".data) ',' _ rfl (by decide)]
  rw [expectTxt_app (",\"median\":".data)]
  simp only []
  rw [dropWhile_skip numberChar (doubleChars row.medianFunctionLength) _
    (doubleChars_num row.medianFunctionLength)]
  rw [dropWhile_app_keep numberChar ("\x7d\x7d".data) (Char.ofNat 125) _ rfl (by decide)]
  rw [expectTxt_app ("\x7d\x7d".data)]
  simp only []
  rw [parseNat_natChars row.files, parseNat_natChars row.lines]

lemma jsonObjsFrom_step_false_true (fuel : Nat) (row : LanguageRow)
    (hplain : plainName row.name) (tail : List Char) :
    jsonObjsFrom (fuel + 1) (jsonObjText false true row ++ tail) =
      match tail with
      | [] => none
      | c :: more =>
        if c = ',' then
          match jsonObjsFrom fuel more with
          | none => none
          | some rs => some ((row.name, row.files, row.lines) :: rs)
        else if c = ']' then
          match more with
          | e :: [] =>
            if e = Char.ofNat 125 then some [(row.name, row.files, row.lines)] else none
          | _ => none
        else none := by
  have hqx : ∀ a ∈ row.name, (fun c : Char => decide (c ≠ '"')) a = true := by
    intro a ha
    simpa using (hplain a ha).2.1
  conv_lhs => simp only [jsonObjText, List.append_assoc]
  first
  | rw [if_neg (show ¬(false = true) by decide)]
  | skip
  first
  | rw [if_pos (show true = true from rfl)]
  | rw [if_pos trivial]
  | skip
  first
  | rw [List.nil_append]
  | skip
  first
  | rw [List.append_assoc (",\"commentLines\":".data) (natChars row.commentLines)]
  | skip
  simp only [jsonObjsFrom]
  rw [jsonEscape_plain row.name hplain]
  rw [expectTxt_app ("\x7b\"language\":\"".data)]
  simp only []
  rw [takeWhile_app_head (fun c : Char => decide (c ≠ '"')) row.name ("\",\"files\":".data) _ '"'
    hqx rfl (by decide)]
  rw [List.drop_left]
  rw [expectTxt_app ("\",\"files\":".data)]
  simp only []
  rw [takeWhile_app_head isDigitChar (natChars row.files) (",\"lines\":".data) _ ','
    (natChars_digit row.files) rfl (by decide)]
  rw [if_neg (natChars_ne_nil row.files), List.drop_left]
  rw [expectTxt_app (",\"lines\":".data)]
  simp only []
  rw [takeWhile_app_head isDigitChar (natChars row.lines) (",\"commentLines\":".data) _ ','
    (natChars_digit row.lines) rfl (by decide)]
  rw [if_neg (natChars_ne_nil row.lines), List.drop_left]
  rw [expectTxt_stop (",\"blankLines\":".data) (",\"commentLines\":".data) _ (by decide) (by decide)]
  simp only []
  rw [expectTxt_app (",\"commentLines\":".data)]
  simp only []
  rw [dropWhile_skip isDigitChar (natChars row.commentLines) _ (natChars_digit row.commentLines)]
  rw [dropWhile_app_keep isDigitChar (",\"functions\":\x7b\"count\":".data) ',' _ rfl (by decide)]
  rw [expectTxt_app (",\"functions\":\x7b\"count\":".data)]
  simp only []
  rw [dropWhile_skip isDigitChar (natChars row.functionCount) _ (natChars_digit row.functionCount)]
  rw [dropWhile_app_keep isDigitChar (",\"min\":".data) ',' _ rfl (by decide)]
  rw [expectTxt_app (",\"min\":".data)]
  simp only []
  rw [dropWhile_skip numberChar (intChars row.minFunctionLength) _
    (intChars_num row.minFunctionLength)]
  rw [dropWhile_app_keep numberChar (",\"max\":".data) ',' _ rfl (by decide)]
  rw [expectTxt_app (",\"max\":".data)]
  simp only []
  rw [dropWhile_skip numberChar (intChars row.maxFunctionLength) _
    (intChars_num row.maxFunctionLength)]
  rw [dropWhile_app_keep numberChar (",\"average\":".data) ',' _ rfl (by decide)]
  rw [expectTxt_app (",\"average\":".data)]
  simp only []
  rw [dropWhile_skip numberChar (doubleChars row.averageFunctionLength) _
    (doubleChars_num row.averageFunctionLength)]
  rw [dropWhile_app_keep numberChar (",\"median\":".data) ',' _ rfl (by decide)]
  rw [expectTxt_app (",\"median\":".data)]
  simp only []
  rw [dropWhile_skip numberChar (doubleChars row.medianFunctionLength) _
    (doubleChars_num row.medianFunctionLength)]
  rw [dropWhile_app_keep numberChar ("\x7d\x7d".data) (Char.ofNat 125) _ rfl (by decide)]
  rw [expectTxt_app ("\x7d\x7d".data)]
  simp only []
  rw [parseNat_natChars row.files, parseNat_natChars row.lines]

lemma jsonObjsFrom_step_true_false (fuel : Nat) (row : LanguageRow)
    (hplain : plainName row.name) (tail : List Char) :
    jsonObjsFrom (fuel + 1) (jsonObjText true false row ++ tail) =
      match tail with
      | [] => none
      | c :: more =>
        if c = ',' then
          match jsonObjsFrom fuel more with
          | none => none
          | some rs => some ((row.name, row.files, row.lines) :: rs)
        else if c = ']' then
          match more with
          | e :: [] =>
            if e = Char.ofNat 125 then some [(row.name, row.files, row.lines)] else none
          | _ => none
        else none := by
  have hqx : ∀ a ∈ row.name, (fun c : Char => decide (c ≠ '"')) a = true := by
    intro a ha
    simpa using (hplain a ha).2.1
  conv_lhs => simp only [jsonObjText, List.append_assoc]
  first
  | rw [if_pos (show true = true from rfl)]
  | rw [if_pos trivial]
  | skip
  first
  | rw [if_neg (show ¬(false = true) by decide)]
  | skip
  first
  | rw [List.append_assoc (",\"blankLines\":".data) (natChars row.blankLines)]
  | skip
  first
  | rw [List.nil_append]
  | skip
  simp only [jsonObjsFrom]
  rw [jsonEscape_plain row.name hplain]
  rw [expectTxt_app ("\x7b\"language\":\"".data)]
  simp only []
  rw [takeWhile_app_head (fun c : Char => decide (c ≠ '"')) row.name ("\",\"files\":".data) _ '"'
    hqx rfl (by decide)]
  rw [List.drop_left]
  rw [expectTxt_app ("\",\"files\":".data)]
  simp only []
  rw [takeWhile_app_head isDigitChar (natChars row.files) (",\"lines\":".data) _ ','
    (natChars_digit row.files) rfl (by decide)]
  rw [if_neg (natChars_ne_nil row.files), List.drop_left]
  rw [expectTxt_app (",\"lines\":".data)]
  simp only []
  rw [takeWhile_app_head isDigitChar (natChars row.lines) (",\"blankLines\":".data) _ ','
    (natChars_digit row.lines) rfl (by decide)]
  rw [if_neg (natChars_ne_nil row.lines), List.drop_left]
  rw [expectTxt_app (",\"blankLines\":".data)]
  simp only []
  rw [dropWhile_skip isDigitChar (natChars row.blankLines) _ (natChars_digit row.blankLines)]
  rw [dropWhile_app_keep isDigitChar (",\"functions\":\x7b\"count\":".data) ',' _ rfl (by decide)]
  rw [expectTxt_stop (",\"commentLines\":".data) (",\"functions\":\x7b\"count\":".data) _ (by decide) (by decide)]
  simp only []
  rw [expectTxt_app (",\"functions\":\x7b\"count\":".data)]
  simp only []
  rw [dropWhile_skip isDigitChar (natChars row.functionCount) _ (natChars_digit row.functionCount)]
  rw [dropWhile_app_keep isDigitChar (",\"min\":".data) ',' _ rfl (by decide)]
  rw [expectTxt_app (",\"min\":".data)]
  simp only []
  rw [dropWhile_skip numberChar (intChars row.minFunctionLength) _
    (intChars_num row.minFunctionLength)]
  rw [dropWhile_app_keep numberChar (",\"max\":".data) ',' _ rfl (by decide)]
  rw [expectTxt_app (",\"max\":".data)]
  simp only []
  rw [dropWhile_skip numberChar (intChars row.maxFunctionLength) _
    (intChars_num row.maxFunctionLength)]
  rw [dropWhile_app_keep numberChar (",\"average\":".data) ',' _ rfl (by decide)]
  rw [expectTxt_app (",\"average\":".data)]
  simp only []
  rw [dropWhile_skip numberChar (doubleChars row.averageFunctionLength) _
    (doubleChars_num row.averageFunctionLength)]
  rw [dropWhile_app_keep numberChar (",\"median\":".data) ',' _ rfl (by decide)]
  rw [expectTxt_app (",\"median\":".data)]
  simp only []
  rw [dropWhile_skip numberChar (doubleChars row.medianFunctionLength) _
    (doubleChars_num row.medianFunctionLength)]
  rw [dropWhile_app_keep numberChar ("\x7d\x7d".data) (Char.ofNat 125) _ rfl (by decide)]
  rw [expectTxt_app ("\x7d\x7d".data)]
  simp only []
  rw [parseNat_natChars row.files, parseNat_natChars row.lines]

lemma jsonObjsFrom_step_true_true (fuel : Nat) (row : LanguageRow)
    (hplain : plainName row.name) (tail : List Char) :
    jsonObjsFrom (fuel + 1) (jsonObjText true true row ++ tail) =
      match tail with
      | [] => none
      | c :: more =>
        if c = ',' then
          match jsonObjsFrom fuel more with
          | none => none
          | some rs => some ((row.name, row.files, row.lines) :: rs)
        else if c = ']' then
          match more with
          | e :: [] =>
            if e = Char.ofNat 125 then some [(row.name, row.files, row.lines)] else none
          | _ => none
        else none := by
  have hqx : ∀ a ∈ row.name, (fun c : Char => decide (c ≠ '"')) a = true := by
    intro a ha
    simpa using (hplain a ha).2.1
  conv_lhs => simp only [jsonObjText, List.append_assoc]
  first
  | rw [if_pos (show true = true from rfl)]
  | rw [if_pos trivial]
  | skip
  first
  | rw [if_pos (show true = true from rfl)]
  | rw [if_pos trivial]
  | skip
  first
  | rw [List.append_assoc (",\"blankLines\":".data) (natChars row.blankLines)]
  | skip
  first
  | rw [List.append_assoc (",\"commentLines\":".data) (natChars row.commentLines)]
  | skip
  simp only [jsonObjsFrom]
  rw [jsonEscape_plain row.name hplain]
  rw [expectTxt_app ("\x7b\"language\":\"".data)]
  simp only []
  rw [takeWhile_app_head (fun c : Char => decide (c ≠ '"')) row.name ("\",\"files\":".data) _ '"'
    hqx rfl (by decide)]
  rw [List.drop_left]
  rw [expectTxt_app ("\",\"files\":".data)]
  simp only []
  rw [takeWhile_app_head isDigitChar (natChars row.files) (",\"lines\":".data) _ ','
    (natChars_digit row.files) rfl (by decide)]
  rw [if_neg (natChars_ne_nil row.files), List.drop_left]
  rw [expectTxt_app (",\"lines\":".data)]
  simp only []
  rw [takeWhile_app_head isDigitChar (natChars row.lines) (",\"blankLines\":".data) _ ','
    (natChars_digit row.lines) rfl (by decide)]
  rw [if_neg (natChars_ne_nil row.lines), List.drop_left]
  rw [expectTxt_app (",\"blankLines\":".data)]
  simp only []
  rw [dropWhile_skip isDigitChar (natChars row.blankLines) _ (natChars_digit row.blankLines)]
  rw [dropWhile_app_keep isDigitChar (",\"commentLines\":".data) ',' _ rfl (by decide)]
  rw [expectTxt_app (",\"commentLines\":".data)]
  simp only []
  rw [dropWhile_skip isDigitChar (natChars row.commentLines) _ (natChars_digit row.commentLines)]
  rw [dropWhile_app_keep isDigitChar (",\"functions\":\x7b\"count\":".data) ',' _ rfl (by decide)]
  rw [expectTxt_app (",\"functions\":\x7b\"count\":".data)]
  simp only []
  rw [dropWhile_skip isDigitChar (natChars row.functionCount) _ (natChars_digit row.functionCount)]
  rw [dropWhile_app_keep isDigitChar (",\"min\":".data) ',' _ rfl (by decide)]
  rw [expectTxt_app (",\"min\":".data)]
  simp only []
  rw [dropWhile_skip numberChar (intChars row.minFunctionLength) _
    (intChars_num row.minFunctionLength)]
  rw [dropWhile_app_keep numberChar (",\"max\":".data) ',' _ rfl (by decide)]
  rw [expectTxt_app (",\"max\":".data)]
  simp only []
  rw [dropWhile_skip numberChar (intChars row.maxFunctionLength) _
    (intChars_num row.maxFunctionLength)]
  rw [dropWhile_app_keep numberChar (",\"average\":".data) ',' _ rfl (by decide)]
  rw [expectTxt_app (",\"average\":".data)]
  simp only []
  rw [dropWhile_skip numberChar (doubleChars row.averageFunctionLength) _
    (doubleChars_num row.averageFunctionLength)]
  rw [dropWhile_app_keep numberChar (",\"median\":".data) ',' _ rfl (by decide)]
  rw [expectTxt_app (",\"median\":".data)]
  simp only []
  rw [dropWhile_skip numberChar (doubleChars row.medianFunctionLength) _
    (doubleChars_num row.medianFunctionLength)]
  rw [dropWhile_app_keep numberChar ("\x7d\x7d".data) (Char.ofNat 125) _ rfl (by decide)]
  rw [expectTxt_app ("\x7d\x7d".data)]
  simp only []
  rw [parseNat_natChars row.files, parseNat_natChars row.lines]

lemma jsonObjsFrom_step (ib ic : Bool) (fuel : Nat) (row : LanguageRow)
    (hplain : plainName row.name) (tail : List Char) :
    jsonObjsFrom (fuel + 1) (jsonObjText ib ic row ++ tail) =
      match tail with
      | [] => none
      | c :: more =>
        if c = ',' then
          match jsonObjsFrom fuel more with
          | none => none
          | some rs => some ((row.name, row.files, row.lines) :: rs)
        else if c = ']' then
          match more with
          | e :: [] =>
            if e = Char.ofNat 125 then some [(row.name, row.files, row.lines)] else none
          | _ => none
        else none := by
  cases ib <;> cases ic
  case false.false => exact jsonObjsFrom_step_false_false fuel row hplain tail
  case false.true => exact jsonObjsFrom_step_false_true fuel row hplain tail
  case true.false => exact jsonObjsFrom_step_true_false fuel row hplain tail
  case true.true => exact jsonObjsFrom_step_true_true fuel row hplain tail

lemma intersperse_flatten_cons (s x : List Char) (l : List (List Char)) (hl : l ≠ []) :
    (List.intersperse s (x :: l)).flatten = x ++ (s ++ (List.intersperse s l).flatten) := by
  cases l with
  | nil => exact absurd rfl hl
  | cons y t => rfl

lemma csvRowsFrom_nil (fuel : Nat) : csvRowsFrom fuel [] = some [] := by
  cases fuel <;> rfl

lemma csvRows_all (ib ic : Bool) (rows : List LanguageRow)
    (hplain : ∀ r ∈ rows, plainName r.name) :
    ∀ fuel, rows.length ≤ fuel →
      csvRowsFrom fuel ((rows.map (csvRowText ib ic)).flatten) =
        some (rows.map (fun r => (r.name, r.files, r.lines))) := by
  induction rows with
  | nil =>
    intro fuel _
    exact csvRowsFrom_nil fuel
  | cons r t ih =>
    intro fuel hfuel
    cases fuel with
    | zero => simp at hfuel
    | succ f =>
      rw [List.map_cons, List.flatten_cons]
      rw [csvRowsFrom_step ib ic f r (hplain r (List.mem_cons_self r t)) _]
      rw [ih (fun x hx => hplain x (List.mem_cons_of_mem r hx)) f
        (by simp only [List.length_cons] at hfuel; omega)]
      simp only [List.map_cons]

lemma jsonObjs_all (ib ic : Bool) (rows : List LanguageRow)
    (hplain : ∀ r ∈ rows, plainName r.name) :
    ∀ fuel, rows.length ≤ fuel → rows ≠ [] →
      jsonObjsFrom fuel
        ((List.intersperse ([','] : List Char) (rows.map (jsonObjText ib ic))).flatten ++
          "]\x7d".data) =
        some (rows.map (fun r => (r.name, r.files, r.lines))) := by
  induction rows with
  | nil =>
    intro fuel _ hne
    exact absurd rfl hne
  | cons r t ih =>
    intro fuel hfuel _
    cases fuel with
    | zero => simp at hfuel
    | succ f =>
      cases t with
      | nil =>
        rw [List.map_cons, List.map_nil]
        rw [show (List.intersperse ([','] : List Char) [jsonObjText ib ic r]).flatten =
          jsonObjText ib ic r ++ [] from rfl]
        rw [List.append_nil]
        rw [jsonObjsFrom_step ib ic f r (hplain r (List.mem_cons_self r [])) ("]\x7d".data)]
        rw [show ("]\x7d".data : List Char) = ']' :: Char.ofNat 125 :: [] from rfl]
        simp only []
        first
        | rw [if_pos trivial, if_pos trivial]
        | rw [if_neg (show ¬((']' : Char) = ',') by decide),
            if_pos (show (']' : Char) = ']' from rfl),
            if_pos (show Char.ofNat 125 = Char.ofNat 125 from rfl)]
        rfl
      | cons r2 t2 =>
        rw [List.map_cons]
        rw [intersperse_flatten_cons [','] (jsonObjText ib ic r) ((r2 :: t2).map (jsonObjText ib ic))
          (by simp)]
        rw [List.append_assoc, List.append_assoc]
        rw [jsonObjsFrom_step ib ic f r (hplain r (List.mem_cons_self r (r2 :: t2))) _]
        rw [List.singleton_append]
        simp only []
        first
        | rw [if_pos trivial]
        | rw [if_pos (show (',' : Char) = ',' from rfl)]
        rw [ih (fun x hx => hplain x (List.mem_cons_of_mem r hx)) f
          (by simp only [List.length_cons] at hfuel ⊢; omega) (by simp)]
        simp only [List.map_cons]

lemma flatten_map_ge (f : LanguageRow → List Char) (rows : List LanguageRow)
    (h : ∀ r, 1 ≤ (f r).length) : rows.length ≤ ((rows.map f).flatten).length := by
  induction rows with
  | nil => simp
  | cons r t ih =>
    have := h r
    simp only [List.map_cons, List.flatten_cons, List.length_cons, List.length_append]
    omega

lemma inter_flatten_ge (s : List Char) (f : LanguageRow → List Char) (rows : List LanguageRow)
    (h : ∀ r, 1 ≤ (f r).length) :
    rows.length ≤ ((List.intersperse s (rows.map f)).flatten).length := by
  induction rows with
  | nil => simp
  | cons r t ih =>
    cases t with
    | nil =>
      have := h r
      simp only [List.map_cons, List.map_nil, List.length_cons, List.length_nil]
      rw [show (List.intersperse s [f r]).flatten = f r ++ [] from rfl]
      simp only [List.append_nil]
      omega
    | cons r2 t2 =>
      have := h r
      rw [List.map_cons, intersperse_flatten_cons s (f r) ((r2 :: t2).map f) (by simp)]
      simp only [List.length_cons, List.length_append] at *
      omega

lemma csvRowText_len (ib ic : Bool) (r : LanguageRow) : 1 ≤ (csvRowText ib ic r).length := by
  simp [csvRowText]

lemma jsonObjText_len (ib ic : Bool) (r : LanguageRow) : 1 ≤ (jsonObjText ib ic r).length := by
  cases ib <;> cases ic <;> simp [jsonObjText, List.length_append]

lemma csvHeader_drop (ib ic : Bool) (X : List Char) :
    ((csvHeaderText ib ic ++ X).dropWhile (fun c => decide (c ≠ '\n'))).drop 1 = X := by
  cases ib <;> cases ic
  case false.false =>
    have hsplit : csvHeaderText false false =
        (bomChars ++ ("Language,Files,Lines" ++
          ",Functions,MinFunctionLength,MaxFunctionLength,AverageFunctionLength,MedianFunctionLength").data) ++
          ['\n'] := by decide
    rw [hsplit, List.append_assoc, List.singleton_append]
    rw [dropWhile_app (fun c : Char => decide (c ≠ '\n')) _ ('\n' :: X) (by decide)
      (head_fail_of _ _ '\n' rfl (by decide))]
    simp only [List.drop_succ_cons, List.drop_zero]
  case false.true =>
    have hsplit : csvHeaderText false true =
        (bomChars ++ ("Language,Files,Lines" ++ ",CommentLines" ++
          ",Functions,MinFunctionLength,MaxFunctionLength,AverageFunctionLength,MedianFunctionLength").data) ++
          ['\n'] := by decide
    rw [hsplit, List.append_assoc, List.singleton_append]
    rw [dropWhile_app (fun c : Char => decide (c ≠ '\n')) _ ('\n' :: X) (by decide)
      (head_fail_of _ _ '\n' rfl (by decide))]
    simp only [List.drop_succ_cons, List.drop_zero]
  case true.false =>
    have hsplit : csvHeaderText true false =
        (bomChars ++ ("Language,Files,Lines" ++ ",BlankLines" ++
          ",Functions,MinFunctionLength,MaxFunctionLength,AverageFunctionLength,MedianFunctionLength").data) ++
          ['\n'] := by decide
    rw [hsplit, List.append_assoc, List.singleton_append]
    rw [dropWhile_app (fun c : Char => decide (c ≠ '\n')) _ ('\n' :: X) (by decide)
      (head_fail_of _ _ '\n' rfl (by decide))]
    simp only [List.drop_succ_cons, List.drop_zero]
  case true.true =>
    have hsplit : csvHeaderText true true =
        (bomChars ++ ("Language,Files,Lines" ++ ",BlankLines" ++ ",CommentLines" ++
          ",Functions,MinFunctionLength,MaxFunctionLength,AverageFunctionLength,MedianFunctionLength").data) ++
          ['\n'] := by decide
    rw [hsplit, List.append_assoc, List.singleton_append]
    rw [dropWhile_app (fun c : Char => decide (c ≠ '\n')) _ ('\n' :: X) (by decide)
      (head_fail_of _ _ '\n' rfl (by decide))]
    simp only [List.drop_succ_cons, List.drop_zero]

lemma csvTriples_report (result : CodeStatsResult)
    (hplain : ∀ r ∈ collectLanguageRows result, plainName r.name) :
    csvTriples (buildCsvReport result) =
      some ((collectLanguageRows result).map (fun r => (r.name, r.files, r.lines))) := by
  simp only [csvTriples, buildCsvReport]
  rw [csvHeader_drop]
  exact csvRows_all _ _ _ hplain _
    (flatten_map_ge _ _ (csvRowText_len result.includeBlankLines result.includeCommentLines))

lemma jsonTriples_report (result : CodeStatsResult)
    (hplain : ∀ r ∈ collectLanguageRows result, plainName r.name) :
    jsonTriples (buildJsonReport result) =
      some ((collectLanguageRows result).map (fun r => (r.name, r.files, r.lines))) := by
  simp only [jsonTriples, buildJsonReport]
  rw [List.append_assoc]
  rw [expectTxt_app ("\x7b\"languages\":[".data)]
  simp only []
  cases hrows : collectLanguageRows result with
  | nil =>
    rw [if_pos (by rfl)]
    rfl
  | cons r t =>
    rw [hrows] at hplain
    have hlen : (r :: t).length ≤
        ((List.intersperse ([','] : List Char) ((r :: t).map
          (jsonObjText result.includeBlankLines result.includeCommentLines))).flatten ++
          "]\x7d".data).length := by
      have h1 := inter_flatten_ge ([','] : List Char)
        (jsonObjText result.includeBlankLines result.includeCommentLines) (r :: t)
        (jsonObjText_len result.includeBlankLines result.includeCommentLines)
      rw [List.length_append]
      omega
    rw [if_neg ?hne]
    · exact jsonObjs_all _ _ _ hplain _ hlen (by simp)
    case hne =>
      intro he
      have hl := congrArg List.length he
      rw [List.length_append] at hl
      have h1 := inter_flatten_ge ([','] : List Char)
        (jsonObjText result.includeBlankLines result.includeCommentLines) (r :: t)
        (jsonObjText_len result.includeBlankLines result.includeCommentLines)
      simp only [List.length_cons] at h1
      simp only [List.length_cons, List.length_nil] at hl
      omega

lemma rows_sorted (result : CodeStatsResult) :
    List.Pairwise (fun a b : LanguageRow => a.name ≤ b.name) (collectLanguageRows result) := by
  unfold collectLanguageRows
  haveI ht : IsTotal LanguageRow (fun a b => a.name ≤ b.name) :=
    ⟨fun a b => le_total a.name b.name⟩
  haveI htr : IsTrans LanguageRow (fun a b => a.name ≤ b.name) :=
    ⟨fun a b c hab hbc => le_trans hab hbc⟩
  exact List.sorted_insertionSort _ _

/-- C9: for every analysis result whose language names are plain printable
strings (no control characters, quotes or backslashes — true of every name
the analyzer emits), the CSV payload and the JSON payload decode to the
same `(language, files, lines)` triples in the same order, that common
list is exactly the sorted row list both exporters render, and its names
are in ascending order. -/
theorem c9_csv_json_agree (result : CodeStatsResult)
    (hplain : ∀ p ∈ result.languageSummaries, plainName p.1.data) :
    ∃ ts,
      csvTriples (buildCsvReport result) = some ts ∧
      jsonTriples (buildJsonReport result) = some ts ∧
      ts = (collectLanguageRows result).map (fun r => (r.name, r.files, r.lines)) ∧
      List.Pairwise (fun a b : List Char × Nat × Nat => a.1 ≤ b.1) ts := by
  have hrows : ∀ r ∈ collectLanguageRows result, plainName r.name := by
    intro r hr
    unfold collectLanguageRows at hr
    rw [List.mem_insertionSort] at hr
    obtain ⟨p, hp, rfl⟩ := List.mem_map.mp hr
    exact hplain p hp
  refine ⟨_, csvTriples_report result hrows, jsonTriples_report result hrows, rfl, ?_⟩
  exact (rows_sorted result).map _ (fun a b h => h)

/-- C9 (witness): the agreement at a concrete two-language result. -/
theorem c9_csv_json_agree_witness :
    (∀ p ∈ demoResult.languageSummaries, plainName p.1.data) ∧
    (∃ ts,
      csvTriples (buildCsvReport demoResult) = some ts ∧
      jsonTriples (buildJsonReport demoResult) = some ts ∧
      ts = (collectLanguageRows demoResult).map (fun r => (r.name, r.files, r.lines)) ∧
      List.Pairwise (fun a b : List Char × Nat × Nat => a.1 ≤ b.1) ts) :=
  ⟨by decide, c9_csv_json_agree demoResult (by decide)⟩

end CS
